import Mathlib

/-!
Verification development for the calibrate-camera-system repository.

This file gives a shallow embedding of the calibration and triangulation
pipeline of `src/core.py` (and the `CameraModel` of
`src/calibrate_camera_system/core.py`) and proves properties of it.

Modelling conventions:
* Exact arithmetic (`ℚ` or `ℝ`) replaces IEEE floating point; numpy's
  transcendental functions are `Real.exp` / `Real.sqrt`.  Division by zero
  follows Lean's `x / 0 = 0` convention where numpy produces `nan`; the spots
  where this matters are noted next to the definitions.
* External numerical solvers (`cv2.calibrateCamera`, `cv2.stereoCalibrate`,
  `np.linalg.svd`) and the random batch generator `np.random.randint` are
  modelled as oracle parameters: the code under verification is everything
  around those calls.
* Python `dict`s / `OrderedDict`s are association lists preserving insertion
  order; Python exceptions are `Except String`.
-/

/-! ## Intrinsic calibration averaging (`calibrate_intrinsics`, src/core.py 233-259)

One round of the loop body calls `cv2.calibrateCamera` on a random batch and
obtains a calibration matrix, distortion coefficients and an RMSE.  The rounds
are independent (the seed matrix is never reassigned inside the loop), so the
per-round solver outputs are an oracle `solve : ℕ → IntrinsicsResult`. -/

@[ext]
structure IntrinsicsResult where
  calibration_matrix : Fin 3 → Fin 3 → ℚ
  dist_coeffs : Fin 5 → ℚ
  rmse : ℚ

/-- The zero accumulators of lines 234-236
(`avg_rmse = 0`, `avg_calibration_matrix = np.zeros`, `avg_dist_coeffs = np.zeros`). -/
def intrinsicsZero : IntrinsicsResult :=
  ⟨fun _ _ => 0, fun _ => 0, 0⟩

/-- The `+=` accumulation of lines 252-254. -/
def intrinsicsAdd (a b : IntrinsicsResult) : IntrinsicsResult :=
  ⟨fun i j => a.calibration_matrix i j + b.calibration_matrix i j,
   fun i => a.dist_coeffs i + b.dist_coeffs i,
   a.rmse + b.rmse⟩

/-- The final division by `optim_iterations` of lines 257-259. -/
def intrinsicsDiv (a : IntrinsicsResult) (n : ℚ) : IntrinsicsResult :=
  ⟨fun i j => a.calibration_matrix i j / n,
   fun i => a.dist_coeffs i / n,
   a.rmse / n⟩

/-- The accumulate-then-divide loop of `calibrate_intrinsics`
(src/core.py lines 237-259): run `optim_iterations` rounds, sum the per-round
solver outputs, divide the sums by the number of rounds. -/
def calibrate_intrinsics_avg (optim_iterations : ℕ) (solve : ℕ → IntrinsicsResult) :
    IntrinsicsResult :=
  intrinsicsDiv
    ((List.range optim_iterations).foldl (fun acc i => intrinsicsAdd acc (solve i)) intrinsicsZero)
    optim_iterations

theorem calibrate_fold_matrix (n : ℕ) (solve : ℕ → IntrinsicsResult) (i : Fin 3) (j : Fin 3) :
    ((List.range n).foldl (fun acc k => intrinsicsAdd acc (solve k))
        intrinsicsZero).calibration_matrix i j
      = ∑ k ∈ Finset.range n, (solve k).calibration_matrix i j := by
  induction n with
  | zero => simp [intrinsicsZero]
  | succ m ih =>
    rw [List.range_succ, List.foldl_append, Finset.sum_range_succ, ← ih]
    simp [intrinsicsAdd]

theorem calibrate_fold_dist (n : ℕ) (solve : ℕ → IntrinsicsResult) (i : Fin 5) :
    ((List.range n).foldl (fun acc k => intrinsicsAdd acc (solve k))
        intrinsicsZero).dist_coeffs i
      = ∑ k ∈ Finset.range n, (solve k).dist_coeffs i := by
  induction n with
  | zero => simp [intrinsicsZero]
  | succ m ih =>
    rw [List.range_succ, List.foldl_append, Finset.sum_range_succ, ← ih]
    simp [intrinsicsAdd]

theorem calibrate_fold_rmse (n : ℕ) (solve : ℕ → IntrinsicsResult) :
    ((List.range n).foldl (fun acc k => intrinsicsAdd acc (solve k)) intrinsicsZero).rmse
      = ∑ k ∈ Finset.range n, (solve k).rmse := by
  induction n with
  | zero => simp [intrinsicsZero]
  | succ m ih =>
    rw [List.range_succ, List.foldl_append, Finset.sum_range_succ, ← ih]
    simp [intrinsicsAdd]

/-- C1: for every number of optimization rounds `n ≥ 1`, the intrinsics produced
by the batch-averaging loop of `calibrate_intrinsics` are the element-wise
arithmetic mean of the `n` per-round `cv2.calibrateCamera` outputs (calibration
matrix, distortion coefficients and RMSE); in particular, with
`optim_iterations = 1` the result is exactly the single round's solver output,
so the averaging path is the identity. -/
theorem calibrate_intrinsics_batch_average (n : ℕ) (solve : ℕ → IntrinsicsResult)
    (h : 1 ≤ n) :
    (∀ i j, (calibrate_intrinsics_avg n solve).calibration_matrix i j
        = (∑ k ∈ Finset.range n, (solve k).calibration_matrix i j) / n) ∧
    (∀ i, (calibrate_intrinsics_avg n solve).dist_coeffs i
        = (∑ k ∈ Finset.range n, (solve k).dist_coeffs i) / n) ∧
    (calibrate_intrinsics_avg n solve).rmse = (∑ k ∈ Finset.range n, (solve k).rmse) / n ∧
    (n = 1 → calibrate_intrinsics_avg n solve = solve 0) := by
  refine ⟨?_, ?_, ?_, ?_⟩
  · intro i j
    simp [calibrate_intrinsics_avg, intrinsicsDiv, calibrate_fold_matrix]
  · intro i
    simp [calibrate_intrinsics_avg, intrinsicsDiv, calibrate_fold_dist]
  · simp [calibrate_intrinsics_avg, intrinsicsDiv, calibrate_fold_rmse]
  · rintro rfl
    ext i j
    · simp [calibrate_intrinsics_avg, intrinsicsDiv, calibrate_fold_matrix]
    · simp [calibrate_intrinsics_avg, intrinsicsDiv, calibrate_fold_dist]
    · simp [calibrate_intrinsics_avg, intrinsicsDiv, calibrate_fold_rmse]

/-- Witness for C1: a concrete single-round run where the averaged result
equals the round's solver output. -/
theorem calibrate_intrinsics_batch_average_witness :
    1 ≤ 1 ∧
    calibrate_intrinsics_avg 1 (fun _ => ⟨fun i j => (i : ℚ) + j, fun i => (i : ℚ), 7⟩)
      = ⟨fun i j => (i : ℚ) + j, fun i => (i : ℚ), 7⟩ :=
  ⟨le_refl 1,
   (calibrate_intrinsics_batch_average 1
      (fun _ => ⟨fun i j => (i : ℚ) + j, fun i => (i : ℚ), 7⟩) (le_refl 1)).2.2.2 rfl⟩

/-! ## Multi-view triangulation (`CameraTransformer.triangulate_point` / `DLT`,
src/core.py 401-456)

`np.linalg.svd` is an oracle `svd`: given the stacked equation list it returns
the right singular vector associated with the smallest singular value
(`V[-1, :]` of the numpy call, since numpy orders singular values
decreasingly).  The projection-matrix dictionary
`self.projection_matrices[main_cam_uuid][cam_uuid]` is the parameter `PM`. -/

/-- The equation-building loop of `triangulate_point` (lines 404-416): for each
view append `u * P[2,:] - P[0,:]` and `v * P[2,:] - P[1,:]`, where `P` is the
projection matrix keyed by the main camera, then `np.vstack` the list. -/
def triangulate_equations (PM : String → String → Fin 3 → Fin 4 → ℚ) (main : String)
    (point2d : List (String × (ℚ × ℚ))) : List (Fin 4 → ℚ) :=
  point2d.foldl (fun eqs cp =>
    eqs ++ [fun j => cp.2.1 * PM main cp.1 2 j - PM main cp.1 0 j,
            fun j => cp.2.2 * PM main cp.1 2 j - PM main cp.1 1 j]) []

/-- `triangulate_point` (lines 401-427): solve the stacked system with the SVD
oracle, divide by the homogeneous coordinate, return the first 3 components. -/
def triangulate_point (svd : List (Fin 4 → ℚ) → Fin 4 → ℚ)
    (PM : String → String → Fin 3 → Fin 4 → ℚ) (main : String)
    (point2d : List (String × (ℚ × ℚ))) : Fin 3 → ℚ :=
  let point3d := svd (triangulate_equations PM main point2d)
  fun k => point3d k.castSucc / point3d 3

theorem foldl_append_eq_join {β γ : Type} (f : β → List γ) :
    ∀ (l : List β) (acc : List γ),
      l.foldl (fun eqs b => eqs ++ f b) acc = acc ++ (l.map f).join := by
  intro l
  induction l with
  | nil => intro acc; simp
  | cons b t ih => intro acc; simp [ih, List.append_assoc]

theorem join_pairs_length {β γ : Type} (f g : β → γ) (l : List β) :
    ((l.map fun b => [f b, g b]).join).length = 2 * l.length := by
  induction l with
  | nil => simp
  | cons b t ih => simp [ih]; omega

theorem join_pairs_getD {β : Type} (f g : β → Fin 4 → ℚ) :
    ∀ (l : List β) (i : ℕ) (hi : i < l.length),
      ((l.map fun b => [f b, g b]).join).getD (2 * i) 0 = f l[i]
      ∧ ((l.map fun b => [f b, g b]).join).getD (2 * i + 1) 0 = g l[i] := by
  intro l
  induction l with
  | nil => intro i hi; simp at hi
  | cons b t ih =>
    intro i hi
    have e : ((b :: t).map fun x => [f x, g x]).join
        = f b :: g b :: ((t.map fun x => [f x, g x]).join) := by simp
    cases i with
    | zero => rw [e]; exact ⟨rfl, rfl⟩
    | succ m =>
      have hm : m < t.length := by simpa using hi
      have h1 : 2 * (m + 1) = 2 * m + 1 + 1 := by ring
      rw [e, h1]
      simp only [List.getD_cons_succ, List.getElem_cons_succ]
      exact ih m hm

theorem triangulate_equations_eq_join (PM : String → String → Fin 3 → Fin 4 → ℚ)
    (main : String) (pts : List (String × (ℚ × ℚ))) :
    triangulate_equations PM main pts
      = (pts.map fun cp =>
          [fun j => cp.2.1 * PM main cp.1 2 j - PM main cp.1 0 j,
           fun j => cp.2.2 * PM main cp.1 2 j - PM main cp.1 1 j]).join := by
  unfold triangulate_equations
  rw [foldl_append_eq_join]
  simp

/-- C2: `triangulate_point` builds exactly 2 equations per view, the rows for
view `i` being `u * P[2,:] - P[0,:]` and `v * P[2,:] - P[1,:]` for the
projection matrix `P` keyed by the main camera, stacks them in view order into
one matrix, hands that matrix to the smallest-singular-value SVD oracle, and
returns the resulting vector divided by its homogeneous (4th) coordinate,
truncated to its first 3 components. -/
theorem triangulate_point_dlt_structure (svd : List (Fin 4 → ℚ) → Fin 4 → ℚ)
    (PM : String → String → Fin 3 → Fin 4 → ℚ) (main : String)
    (pts : List (String × (ℚ × ℚ))) (i : ℕ) (hi : i < pts.length) :
    (triangulate_equations PM main pts).length = 2 * pts.length ∧
    (triangulate_equations PM main pts).getD (2 * i) 0
        = (fun j => (pts[i]).2.1 * PM main (pts[i]).1 2 j - PM main (pts[i]).1 0 j) ∧
    (triangulate_equations PM main pts).getD (2 * i + 1) 0
        = (fun j => (pts[i]).2.2 * PM main (pts[i]).1 2 j - PM main (pts[i]).1 1 j) ∧
    triangulate_point svd PM main pts
        = fun k => svd (triangulate_equations PM main pts) k.castSucc
            / svd (triangulate_equations PM main pts) 3 := by
  rw [triangulate_equations_eq_join]
  refine ⟨join_pairs_length _ _ _, (join_pairs_getD _ _ pts i hi).1,
    (join_pairs_getD _ _ pts i hi).2, ?_⟩
  rw [← triangulate_equations_eq_join]
  rfl

/-- Witness for C2: a concrete two-view system. -/
theorem triangulate_point_dlt_structure_witness :
    (0 : ℕ) < ([("camA", ((1 : ℚ), (2 : ℚ))), ("camB", (3, 4))] :
        List (String × (ℚ × ℚ))).length ∧
    (triangulate_equations (fun _ _ i j => (i : ℚ) * j) "m"
        [("camA", (1, 2)), ("camB", (3, 4))]).length = 2 * 2 := by
  refine ⟨by norm_num, ?_⟩
  have h := triangulate_point_dlt_structure (fun _ => fun _ => 1)
    (fun _ _ i j => (i : ℚ) * j) "m" [("camA", (1, 2)), ("camB", (3, 4))] 0 (by norm_num)
  simpa using h.1

/-- `CameraTransformer.DLT` (src/core.py 429-456): asserts that at least 2
cameras supplied observations before triangulating each point index.  The
per-index gathering of lines 441-451 is modelled with `getD`; all cameras'
observation arrays have the same length by the data-model invariant, so the
default is never used on real data. -/
def DLT (svd : List (Fin 4 → ℚ) → Fin 4 → ℚ)
    (PM : String → String → Fin 3 → Fin 4 → ℚ) (main : String)
    (points_2d : List (String × List (ℚ × ℚ))) : Except String (List (Fin 3 → ℚ)) :=
  if 2 ≤ points_2d.length then
    Except.ok ((List.range (((points_2d.head?).map (fun cp => cp.2.length)).getD 0)).map
      (fun i => triangulate_point svd PM main
        (points_2d.map (fun cp => (cp.1, cp.2.getD i (0, 0))))))
  else Except.error "AssertionError: at least points from 2 cameras are required"

def svdConst : List (Fin 4 → ℚ) → Fin 4 → ℚ := fun _ j => (j.val : ℚ) + 1

def pmConst : String → String → Fin 3 → Fin 4 → ℚ := fun _ _ i j => (i : ℚ) + j

/-- C8 counterexample: a direct `triangulate_point` call supplied with the
observation of a single camera does not fail: it returns a normalized 3D value
(the function has no precondition check; only `DLT` asserts `len >= 2`). -/
theorem triangulate_point_single_view_returns_value :
    triangulate_point svdConst pmConst "main" [("cam1", (5, 7))]
      = fun k : Fin 3 => ((k.val : ℚ) + 1) / 4 := by
  funext k
  simp [triangulate_point, svdConst]
  norm_num [show ((3 : Fin 4) : ℕ) = 3 from rfl]

/-- C8 amended: the assertion-style precondition failure for fewer than 2
cameras exists at the `DLT` entry point, which raises `AssertionError` before
computing anything; the underlying `triangulate_point` performs no such check
and returns a value even for a single view. -/
theorem DLT_asserts_two_views (svd : List (Fin 4 → ℚ) → Fin 4 → ℚ)
    (PM : String → String → Fin 3 → Fin 4 → ℚ) (main : String)
    (points_2d : List (String × List (ℚ × ℚ))) (h : points_2d.length < 2) :
    DLT svd PM main points_2d
      = Except.error "AssertionError: at least points from 2 cameras are required" := by
  unfold DLT
  rw [if_neg (by omega)]

/-- Witness for the amended C8: a single-camera `DLT` call raises the
assertion error. -/
theorem DLT_asserts_two_views_witness :
    ([("cam1", [((5 : ℚ), (7 : ℚ))])] : List (String × List (ℚ × ℚ))).length < 2 ∧
    DLT svdConst pmConst "main" [("cam1", [(5, 7)])]
      = Except.error "AssertionError: at least points from 2 cameras are required" :=
  ⟨by norm_num, DLT_asserts_two_views svdConst pmConst "main" _ (by norm_num)⟩

/-! ## Frame gathering for extrinsic calibration (`calibrate_extrinsics`,
src/core.py 290-311)

Python dicts keyed by strings are insertion-ordered association lists.  The
frame id of an image URI (`os.path.basename`) is a pure renaming, so the
per-camera post-filter target maps are given here already keyed by frame id. -/

/-- Python dict assignment `d[k] = v`: overwrite the entry in place if the key
is present, append otherwise (insertion order preserved). -/
def dictInsert {α : Type} (d : List (String × α)) (k : String) (v : α) :
    List (String × α) :=
  if d.any (fun p => p.1 == k) then d.map (fun p => if p.1 == k then (k, v) else p)
  else d ++ [(k, v)]

/-- One step of the loop of lines 299-306: record that camera `cam` observed
frame `fid` with target `v`
(`all_frames[frame_id] = {cam: t}` or `all_frames[frame_id][cam] = t`). -/
def addFrame {α : Type} (acc : List (String × List (String × α))) (fid cam : String)
    (v : α) : List (String × List (String × α)) :=
  if acc.any (fun p => p.1 == fid) then
    acc.map (fun p => if p.1 == fid then (fid, dictInsert p.2 cam v) else p)
  else acc ++ [(fid, [(cam, v)])]

/-- Lines 290-306: iterate the cameras in order and each camera's post-filter
frames in order, building `all_frames : frame id → (camera → target)`. -/
def buildAllFrames {α : Type} (camFrames : List (String × List (String × α))) :
    List (String × List (String × α)) :=
  camFrames.foldl (fun acc cf => cf.2.foldl (fun a kv => addFrame a kv.1 cf.1 kv.2) acc) []

/-- Lines 308-311: keep exactly the frames whose camera dict has an entry for
every camera of the rig (`len(all_frames[frame_id]) == len(cameras)`). -/
def allValidFrames {α : Type} (numCams : ℕ)
    (camFrames : List (String × List (String × α))) :
    List (String × List (String × α)) :=
  (buildAllFrames camFrames).filter (fun p => p.2.length == numCams)

/-- Lookup helper for stating properties of the association lists: the key list
of the first entry with outer key `fid` (empty when absent). -/
def innerKeys {α : Type} : List (String × List (String × α)) → String → List String
  | [], _ => []
  | p :: t, fid => if p.1 = fid then p.2.map Prod.fst else innerKeys t fid

theorem innerKeys_of_not_mem {α : Type} (acc : List (String × List (String × α)))
    (fid : String) (h : fid ∉ acc.map Prod.fst) : innerKeys acc fid = [] := by
  induction acc with
  | nil => rfl
  | cons p t ih =>
    simp only [List.map_cons, List.mem_cons] at h
    push_neg at h
    simp only [innerKeys, if_neg (Ne.symm h.1)]
    exact ih h.2

theorem dictInsert_keys {α : Type} (d : List (String × α)) (k : String) (v : α) :
    (dictInsert d k v).map Prod.fst
      = if k ∈ d.map Prod.fst then d.map Prod.fst else d.map Prod.fst ++ [k] := by
  unfold dictInsert
  by_cases h : k ∈ d.map Prod.fst
  · have hany : d.any (fun p => p.1 == k) = true := by
      simp only [List.any_eq_true, beq_iff_eq]
      obtain ⟨p, hp, hk⟩ := List.mem_map.mp h
      exact ⟨p, hp, hk⟩
    rw [if_pos hany, if_pos h, List.map_map]
    apply List.map_congr_left
    intro p _
    by_cases hpk : p.1 = k
    · simp [hpk]
    · simp [hpk]
  · have hany : d.any (fun p => p.1 == k) = false := by
      simp only [List.any_eq_false, beq_iff_eq]
      intro p hp hk
      exact h (List.mem_map.mpr ⟨p, hp, hk⟩)
    rw [if_neg (by simp [hany]), if_neg h]
    simp

theorem addFrame_keys {α : Type} (acc : List (String × List (String × α)))
    (fid cam : String) (v : α) :
    (addFrame acc fid cam v).map Prod.fst
      = if fid ∈ acc.map Prod.fst then acc.map Prod.fst else acc.map Prod.fst ++ [fid] := by
  unfold addFrame
  by_cases h : fid ∈ acc.map Prod.fst
  · have hany : acc.any (fun p => p.1 == fid) = true := by
      simp only [List.any_eq_true, beq_iff_eq]
      obtain ⟨p, hp, hk⟩ := List.mem_map.mp h
      exact ⟨p, hp, hk⟩
    rw [if_pos hany, if_pos h, List.map_map]
    apply List.map_congr_left
    intro p _
    by_cases hpk : p.1 = fid
    · simp [hpk]
    · simp [hpk]
  · have hany : acc.any (fun p => p.1 == fid) = false := by
      simp only [List.any_eq_false, beq_iff_eq]
      intro p hp hk
      exact h (List.mem_map.mpr ⟨p, hp, hk⟩)
    rw [if_neg (by simp [hany]), if_neg h]
    simp

theorem addFrame_keys_nodup {α : Type} (acc : List (String × List (String × α)))
    (fid cam : String) (v : α) (h : (acc.map Prod.fst).Nodup) :
    ((addFrame acc fid cam v).map Prod.fst).Nodup := by
  rw [addFrame_keys]
  by_cases hm : fid ∈ acc.map Prod.fst
  · rwa [if_pos hm]
  · rw [if_neg hm, List.nodup_append]
    refine ⟨h, List.nodup_singleton _, ?_⟩
    intro a ha hb
    rw [List.mem_singleton] at hb
    subst hb
    exact hm ha

theorem innerKeys_append {α : Type} (l1 l2 : List (String × List (String × α)))
    (fid : String) :
    innerKeys (l1 ++ l2) fid
      = if fid ∈ l1.map Prod.fst then innerKeys l1 fid else innerKeys l2 fid := by
  induction l1 with
  | nil => simp [innerKeys]
  | cons p t ih =>
    by_cases hp : p.1 = fid
    · simp [innerKeys, hp]
    · have hne : ¬ fid = p.1 := fun hh => hp hh.symm
      simp only [List.cons_append, innerKeys, if_neg hp, ih, List.map_cons, List.mem_cons]
      rw [if_congr (or_iff_right hne) rfl rfl]
      exact ih

theorem innerKeys_map_update_other {α : Type} (t : List (String × List (String × α)))
    (fid fid' : String) (f : List (String × α) → List (String × α)) (h : fid' ≠ fid) :
    innerKeys (t.map (fun q => if q.1 == fid' then (fid', f q.2) else q)) fid
      = innerKeys t fid := by
  induction t with
  | nil => rfl
  | cons q t ih =>
    rw [List.map_cons]
    by_cases hq : q.1 = fid'
    · have hhead : (if q.1 == fid' then (fid', f q.2) else q) = (fid', f q.2) := by
        simp [hq]
      rw [hhead]
      have hqfid : q.1 ≠ fid := by rw [hq]; exact h
      show (if fid' = fid then _ else _) = _
      rw [if_neg h]
      show innerKeys _ fid = innerKeys (q :: t) fid
      rw [ih]
      show _ = if q.1 = fid then _ else innerKeys t fid
      rw [if_neg hqfid]
    · have hhead : (if q.1 == fid' then (fid', f q.2) else q) = q := by
        simp [hq]
      rw [hhead]
      show (if q.1 = fid then _ else _) = (if q.1 = fid then _ else _)
      by_cases hqf : q.1 = fid
      · rw [if_pos hqf, if_pos hqf]
      · rw [if_neg hqf, if_neg hqf, ih]

theorem innerKeys_map_update_self {α : Type} (t : List (String × List (String × α)))
    (fid cam : String) (v : α) (h : fid ∈ t.map Prod.fst) :
    innerKeys (t.map (fun q => if q.1 == fid then (fid, dictInsert q.2 cam v) else q)) fid
      = (if cam ∈ innerKeys t fid then innerKeys t fid else innerKeys t fid ++ [cam]) := by
  induction t with
  | nil => simp at h
  | cons q t ih =>
    rw [List.map_cons]
    by_cases hq : q.1 = fid
    · have hhead : (if q.1 == fid then (fid, dictInsert q.2 cam v) else q)
          = (fid, dictInsert q.2 cam v) := by simp [hq]
      rw [hhead]
      show (if fid = fid then (dictInsert q.2 cam v).map Prod.fst else _) = _
      rw [if_pos rfl, dictInsert_keys]
      show _ = if cam ∈ innerKeys (q :: t) fid then innerKeys (q :: t) fid
          else innerKeys (q :: t) fid ++ [cam]
      have hik : innerKeys (q :: t) fid = q.2.map Prod.fst := by
        show (if q.1 = fid then _ else _) = _
        rw [if_pos hq]
      rw [hik]
    · have hhead : (if q.1 == fid then (fid, dictInsert q.2 cam v) else q) = q := by
        simp [hq]
      rw [hhead]
      have ht : fid ∈ t.map Prod.fst := by
        rw [List.map_cons, List.mem_cons] at h
        rcases h with h1 | h1
        · exact absurd h1.symm hq
        · exact h1
      have hik : innerKeys (q :: t) fid = innerKeys t fid := by
        show (if q.1 = fid then _ else _) = _
        rw [if_neg hq]
      show (if q.1 = fid then _ else _) = _
      rw [if_neg hq, ih ht, hik]

theorem addFrame_innerKeys_self {α : Type} (acc : List (String × List (String × α)))
    (fid cam : String) (v : α) :
    innerKeys (addFrame acc fid cam v) fid
      = if fid ∈ acc.map Prod.fst then
          (if cam ∈ innerKeys acc fid then innerKeys acc fid else innerKeys acc fid ++ [cam])
        else [cam] := by
  unfold addFrame
  by_cases h : fid ∈ acc.map Prod.fst
  · have hany : acc.any (fun p => p.1 == fid) = true := by
      simp only [List.any_eq_true, beq_iff_eq]
      obtain ⟨p, hp, hk⟩ := List.mem_map.mp h
      exact ⟨p, hp, hk⟩
    rw [if_pos hany, if_pos h]
    exact innerKeys_map_update_self acc fid cam v h
  · have hany : acc.any (fun p => p.1 == fid) = false := by
      simp only [List.any_eq_false, beq_iff_eq]
      intro p hp hk
      exact h (List.mem_map.mpr ⟨p, hp, hk⟩)
    rw [if_neg (by simp [hany]), if_neg h, innerKeys_append, if_neg h]
    simp [innerKeys]

theorem addFrame_innerKeys_other {α : Type} (acc : List (String × List (String × α)))
    (fid fid' cam : String) (v : α) (h : fid' ≠ fid) :
    innerKeys (addFrame acc fid' cam v) fid = innerKeys acc fid := by
  unfold addFrame
  by_cases hany : acc.any (fun p => p.1 == fid') = true
  · rw [if_pos hany]
    exact innerKeys_map_update_other acc fid fid' (fun d => dictInsert d cam v) h
  · rw [if_neg hany, innerKeys_append]
    by_cases hm : fid ∈ acc.map Prod.fst
    · rw [if_pos hm]
    · rw [if_neg hm, innerKeys_of_not_mem acc fid hm]
      simp [innerKeys, h]

theorem foldl_addFrame_innerKeys_mem {α : Type} (cam fid : String) :
    ∀ (kvs : List (String × α)) (acc : List (String × List (String × α))),
      cam ∈ innerKeys acc fid →
      innerKeys (kvs.foldl (fun a kv => addFrame a kv.1 cam kv.2) acc) fid
        = innerKeys acc fid := by
  intro kvs
  induction kvs with
  | nil => intro acc h; rfl
  | cons kv rest ih =>
    intro acc h
    rw [List.foldl_cons]
    by_cases hk : kv.1 = fid
    · have hmem : fid ∈ acc.map Prod.fst := by
        by_contra hnm
        rw [innerKeys_of_not_mem acc fid hnm] at h
        simp at h
      have h1 : innerKeys (addFrame acc kv.1 cam kv.2) fid = innerKeys acc fid := by
        rw [hk, addFrame_innerKeys_self, if_pos hmem, if_pos h]
      rw [ih _ (by rw [h1]; exact h), h1]
    · have h1 : innerKeys (addFrame acc kv.1 cam kv.2) fid = innerKeys acc fid :=
        addFrame_innerKeys_other acc fid kv.1 cam kv.2 hk
      rw [ih _ (by rw [h1]; exact h), h1]

theorem foldl_addFrame_innerKeys_not_mem {α : Type} (cam fid : String) :
    ∀ (kvs : List (String × α)) (acc : List (String × List (String × α))),
      cam ∉ innerKeys acc fid →
      innerKeys (kvs.foldl (fun a kv => addFrame a kv.1 cam kv.2) acc) fid
        = innerKeys acc fid ++ (if fid ∈ kvs.map Prod.fst then [cam] else []) := by
  intro kvs
  induction kvs with
  | nil => intro acc h; simp
  | cons kv rest ih =>
    intro acc h
    rw [List.foldl_cons]
    by_cases hk : kv.1 = fid
    · have h1 : innerKeys (addFrame acc kv.1 cam kv.2) fid = innerKeys acc fid ++ [cam] := by
        rw [hk, addFrame_innerKeys_self]
        by_cases hmem : fid ∈ acc.map Prod.fst
        · rw [if_pos hmem, if_neg h]
        · rw [if_neg hmem, innerKeys_of_not_mem acc fid hmem]
          rfl
      have hcam : cam ∈ innerKeys (addFrame acc kv.1 cam kv.2) fid := by
        rw [h1]
        exact List.mem_append_right _ (List.mem_singleton_self _)
      rw [foldl_addFrame_innerKeys_mem cam fid rest _ hcam, h1]
      have hin : fid ∈ (kv :: rest).map Prod.fst := by
        rw [List.map_cons, List.mem_cons]
        exact Or.inl hk.symm
      rw [if_pos hin]
    · have h1 : innerKeys (addFrame acc kv.1 cam kv.2) fid = innerKeys acc fid :=
        addFrame_innerKeys_other acc fid kv.1 cam kv.2 hk
      rw [ih _ (by rw [h1]; exact h), h1]
      have hiff : (fid ∈ (kv :: rest).map Prod.fst) ↔ (fid ∈ rest.map Prod.fst) := by
        rw [List.map_cons, List.mem_cons]
        exact or_iff_right (fun hh => hk hh.symm)
      rw [if_congr hiff rfl rfl]

theorem foldl_addFrame_keys {α : Type} (cam : String) :
    ∀ (kvs : List (String × α)) (acc : List (String × List (String × α))) (fid : String),
      (fid ∈ (kvs.foldl (fun a kv => addFrame a kv.1 cam kv.2) acc).map Prod.fst)
        ↔ (fid ∈ acc.map Prod.fst ∨ fid ∈ kvs.map Prod.fst) := by
  intro kvs
  induction kvs with
  | nil => intro acc fid; simp
  | cons kv rest ih =>
    intro acc fid
    rw [List.foldl_cons, ih, addFrame_keys]
    by_cases hmem : kv.1 ∈ acc.map Prod.fst
    · rw [if_pos hmem, List.map_cons, List.mem_cons]
      constructor
      · rintro (h1 | h1)
        · exact Or.inl h1
        · exact Or.inr (Or.inr h1)
      · rintro (h1 | h2 | h3)
        · exact Or.inl h1
        · exact Or.inl (by rw [h2]; exact hmem)
        · exact Or.inr h3
    · rw [if_neg hmem, List.map_cons, List.mem_cons, List.mem_append, List.mem_singleton]
      tauto

theorem foldl_addFrame_keys_nodup {α : Type} (cam : String) :
    ∀ (kvs : List (String × α)) (acc : List (String × List (String × α))),
      (acc.map Prod.fst).Nodup →
      ((kvs.foldl (fun a kv => addFrame a kv.1 cam kv.2) acc).map Prod.fst).Nodup := by
  intro kvs
  induction kvs with
  | nil => intro acc h; exact h
  | cons kv rest ih =>
    intro acc h
    rw [List.foldl_cons]
    exact ih _ (addFrame_keys_nodup acc kv.1 cam kv.2 h)

theorem buildLoop_innerKeys {α : Type} (fid : String) :
    ∀ (cams : List (String × List (String × α))) (acc : List (String × List (String × α))),
      (cams.map Prod.fst).Nodup →
      (∀ cf ∈ cams, cf.1 ∉ innerKeys acc fid) →
      innerKeys (cams.foldl (fun acc cf =>
          cf.2.foldl (fun a kv => addFrame a kv.1 cf.1 kv.2) acc) acc) fid
        = innerKeys acc fid
          ++ (cams.filter (fun cf => decide (fid ∈ cf.2.map Prod.fst))).map Prod.fst := by
  intro cams
  induction cams with
  | nil => intro acc _ _; simp
  | cons cf rest ih =>
    intro acc hnd hnin
    rw [List.foldl_cons]
    have hcf : cf.1 ∉ innerKeys acc fid := hnin cf (List.mem_cons_self cf rest)
    have h1 := foldl_addFrame_innerKeys_not_mem cf.1 fid cf.2 acc hcf
    have hrest : ∀ cf2 ∈ rest,
        cf2.1 ∉ innerKeys (cf.2.foldl (fun a kv => addFrame a kv.1 cf.1 kv.2) acc) fid := by
      intro cf2 hcf2
      rw [h1]
      intro hmem
      rcases List.mem_append.mp hmem with hm | hm
      · exact hnin cf2 (List.mem_cons_of_mem cf hcf2) hm
      · have heq : cf2.1 = cf.1 := by
          by_cases hf : fid ∈ cf.2.map Prod.fst
          · rw [if_pos hf] at hm
            exact List.mem_singleton.mp hm
          · rw [if_neg hf] at hm
            simp at hm
        have hcfnot : cf.1 ∉ rest.map Prod.fst := by
          rw [List.map_cons, List.nodup_cons] at hnd
          exact hnd.1
        refine hcfnot ?_
        rw [← heq]
        exact List.mem_map.mpr ⟨cf2, hcf2, rfl⟩
    have hndrest : (rest.map Prod.fst).Nodup := by
      rw [List.map_cons, List.nodup_cons] at hnd
      exact hnd.2
    rw [ih _ hndrest hrest, h1, List.filter_cons]
    by_cases hf : fid ∈ cf.2.map Prod.fst
    · simp [hf, List.append_assoc]
    · simp [hf]

theorem buildLoop_keys {α : Type} (fid : String) :
    ∀ (cams : List (String × List (String × α))) (acc : List (String × List (String × α))),
      (fid ∈ (cams.foldl (fun acc cf =>
          cf.2.foldl (fun a kv => addFrame a kv.1 cf.1 kv.2) acc) acc).map Prod.fst)
        ↔ (fid ∈ acc.map Prod.fst ∨ ∃ cf ∈ cams, fid ∈ cf.2.map Prod.fst) := by
  intro cams
  induction cams with
  | nil => intro acc; simp
  | cons cf rest ih =>
    intro acc
    rw [List.foldl_cons, ih, foldl_addFrame_keys]
    constructor
    · rintro ((h1 | h1) | h1)
      · exact Or.inl h1
      · exact Or.inr ⟨cf, List.mem_cons_self cf rest, h1⟩
      · obtain ⟨cf2, hm, hk⟩ := h1
        exact Or.inr ⟨cf2, List.mem_cons_of_mem cf hm, hk⟩
    · rintro (h1 | ⟨cf2, hm, hk⟩)
      · exact Or.inl (Or.inl h1)
      · rcases List.mem_cons.mp hm with rfl | hm2
        · exact Or.inl (Or.inr hk)
        · exact Or.inr ⟨cf2, hm2, hk⟩

theorem buildLoop_keys_nodup {α : Type} :
    ∀ (cams : List (String × List (String × α))) (acc : List (String × List (String × α))),
      (acc.map Prod.fst).Nodup →
      ((cams.foldl (fun acc cf =>
          cf.2.foldl (fun a kv => addFrame a kv.1 cf.1 kv.2) acc) acc).map Prod.fst).Nodup := by
  intro cams
  induction cams with
  | nil => intro acc h; exact h
  | cons cf rest ih =>
    intro acc h
    rw [List.foldl_cons]
    exact ih _ (foldl_addFrame_keys_nodup cf.1 cf.2 acc h)

theorem buildAllFrames_innerKeys {α : Type} (camFrames : List (String × List (String × α)))
    (hk : (camFrames.map Prod.fst).Nodup) (fid : String) :
    innerKeys (buildAllFrames camFrames) fid
      = (camFrames.filter (fun cf => decide (fid ∈ cf.2.map Prod.fst))).map Prod.fst := by
  unfold buildAllFrames
  rw [buildLoop_innerKeys fid camFrames [] hk (fun cf _ => by simp [innerKeys])]
  rfl

theorem buildAllFrames_keys_mem {α : Type} (camFrames : List (String × List (String × α)))
    (fid : String) :
    fid ∈ (buildAllFrames camFrames).map Prod.fst
      ↔ ∃ cf ∈ camFrames, fid ∈ cf.2.map Prod.fst := by
  unfold buildAllFrames
  rw [buildLoop_keys]
  simp

theorem buildAllFrames_keys_nodup {α : Type} (camFrames : List (String × List (String × α))) :
    ((buildAllFrames camFrames).map Prod.fst).Nodup := by
  unfold buildAllFrames
  exact buildLoop_keys_nodup camFrames [] (by simp)

theorem innerKeys_of_mem {α : Type} :
    ∀ (d : List (String × List (String × α))), (d.map Prod.fst).Nodup →
      ∀ p ∈ d, innerKeys d p.1 = p.2.map Prod.fst := by
  intro d
  induction d with
  | nil => intro _ p hp; simp at hp
  | cons q t ih =>
    intro hnd p hp
    rcases List.mem_cons.mp hp with rfl | hp2
    · show (if p.1 = p.1 then _ else _) = _
      rw [if_pos rfl]
    · have hq : q.1 ≠ p.1 := by
        rw [List.map_cons, List.nodup_cons] at hnd
        intro he
        refine hnd.1 ?_
        rw [he]
        exact List.mem_map.mpr ⟨p, hp2, rfl⟩
      show (if q.1 = p.1 then _ else _) = _
      rw [if_neg hq]
      exact ih (by rw [List.map_cons, List.nodup_cons] at hnd; exact hnd.2) p hp2

theorem exists_entry_of_mem_keys {α : Type} :
    ∀ (d : List (String × List (String × α))) (fid : String), fid ∈ d.map Prod.fst →
      ∃ inner, (fid, inner) ∈ d ∧ innerKeys d fid = inner.map Prod.fst := by
  intro d
  induction d with
  | nil => intro fid h; simp at h
  | cons q t ih =>
    intro fid h
    by_cases hq : q.1 = fid
    · refine ⟨q.2, ?_, ?_⟩
      · have he : (fid, q.2) = q := by
          rw [← hq]
        rw [he]
        exact List.mem_cons_self q t
      · show (if q.1 = fid then _ else _) = _
        rw [if_pos hq]
    · have ht : fid ∈ t.map Prod.fst := by
        rw [List.map_cons, List.mem_cons] at h
        rcases h with h1 | h1
        · exact absurd h1.symm hq
        · exact h1
      obtain ⟨inner, hmem, hik⟩ := ih fid ht
      refine ⟨inner, List.mem_cons_of_mem q hmem, ?_⟩
      show (if q.1 = fid then _ else _) = _
      rw [if_neg hq]
      exact hik

theorem filter_length_eq_all {β : Type} (f : β → Bool) :
    ∀ (l : List β), (l.filter f).length = l.length → ∀ x ∈ l, f x = true := by
  intro l
  induction l with
  | nil => intro _ x hx; simp at hx
  | cons b t ih =>
    intro h x hx
    rw [List.filter_cons] at h
    by_cases hb : f b = true
    · rw [if_pos hb] at h
      simp only [List.length_cons, Nat.add_right_cancel_iff] at h
      rcases List.mem_cons.mp hx with rfl | hx2
      · exact hb
      · exact ih h x hx2
    · rw [if_neg hb] at h
      have hle := List.length_filter_le f t
      simp only [List.length_cons] at h
      omega

/-- C5: a frame id enters the extrinsic calibration data
(`all_valid_frames` of `calibrate_extrinsics`) if and only if every camera of
the rig has a post-filter observation of it: the kept set is exactly the
intersection of the per-camera frame id sets. -/
theorem calibrate_extrinsics_frame_intersection {α : Type}
    (camFrames : List (String × List (String × α)))
    (h1 : (camFrames.map Prod.fst).Nodup) (h2 : camFrames ≠ []) (fid : String) :
    fid ∈ (allValidFrames camFrames.length camFrames).map Prod.fst
      ↔ ∀ cf ∈ camFrames, fid ∈ cf.2.map Prod.fst := by
  constructor
  · intro h
    obtain ⟨p, hpmem, hpfst⟩ := List.mem_map.mp h
    rw [allValidFrames, List.mem_filter] at hpmem
    obtain ⟨hpbuild, hplen⟩ := hpmem
    have hlen : p.2.length = camFrames.length := by simpa using hplen
    have hik := innerKeys_of_mem (buildAllFrames camFrames)
      (buildAllFrames_keys_nodup camFrames) p hpbuild
    rw [hpfst, buildAllFrames_innerKeys camFrames h1 fid] at hik
    have hflen : (camFrames.filter (fun cf => decide (fid ∈ cf.2.map Prod.fst))).length
        = camFrames.length := by
      have := congrArg List.length hik
      simpa [hlen] using this
    intro cf hcf
    have := filter_length_eq_all _ camFrames hflen cf hcf
    simpa using this
  · intro hall
    have hmemb : fid ∈ (buildAllFrames camFrames).map Prod.fst := by
      rw [buildAllFrames_keys_mem]
      obtain ⟨cf0, hcf0⟩ := List.exists_mem_of_ne_nil camFrames h2
      exact ⟨cf0, hcf0, hall cf0 hcf0⟩
    obtain ⟨inner, hmem, hik⟩ := exists_entry_of_mem_keys (buildAllFrames camFrames) fid hmemb
    have hfilter : camFrames.filter (fun cf => decide (fid ∈ cf.2.map Prod.fst)) = camFrames :=
      List.filter_eq_self.mpr (fun cf hcf => by simpa using hall cf hcf)
    rw [buildAllFrames_innerKeys camFrames h1 fid, hfilter] at hik
    have hlen : inner.length = camFrames.length := by
      have := congrArg List.length hik
      simpa using this.symm
    refine List.mem_map.mpr ⟨(fid, inner), ?_, rfl⟩
    rw [allValidFrames, List.mem_filter]
    exact ⟨hmem, by simpa using hlen⟩

/-- Witness for C5: with per-camera frame sets `{A, B, C}` and `{B, C, D}`,
frame `B` qualifies (it is seen by both cameras). -/
theorem calibrate_extrinsics_frame_intersection_witness :
    ((([("cam1", [("A", ()), ("B", ()), ("C", ())]),
        ("cam2", [("B", ()), ("C", ()), ("D", ())])] :
        List (String × List (String × Unit))).map Prod.fst).Nodup ∧
      ([("cam1", [("A", ()), ("B", ()), ("C", ())]),
        ("cam2", [("B", ()), ("C", ()), ("D", ())])] :
        List (String × List (String × Unit))) ≠ []) ∧
    ("B" ∈ (allValidFrames
        ([("cam1", [("A", ()), ("B", ()), ("C", ())]),
          ("cam2", [("B", ()), ("C", ()), ("D", ())])] :
          List (String × List (String × Unit))).length
        [("cam1", [("A", ()), ("B", ()), ("C", ())]),
         ("cam2", [("B", ()), ("C", ()), ("D", ())])]).map Prod.fst
      ↔ ∀ cf ∈ ([("cam1", [("A", ()), ("B", ()), ("C", ())]),
          ("cam2", [("B", ()), ("C", ()), ("D", ())])] :
          List (String × List (String × Unit))), "B" ∈ cf.2.map Prod.fst) :=
  ⟨⟨by decide, by decide⟩,
    calibrate_extrinsics_frame_intersection _ (by decide) (by decide) "B"⟩

/-! ## Stereo calibration (`calibrate_extrinsics`, src/core.py 270-383)

`cv2.stereoCalibrate` is the oracle `solve main cam i` (the result of round `i`
for the ordered pair `(main, cam)` on its random batch).  `np.random.randint`
is modelled by the oracle index list and `selectBatch`, which raises the numpy
`ValueError: low >= high` exactly when the sampled-from set is empty.  The
per-camera load-and-filter step of lines 292-297 is the parameter `filtered`
(its `none` models `filter_images_for_intrinsics` returning `None`, which the
subsequent `for image_uri in targets` iteration turns into a `TypeError`).
Intrinsics loading (lines 283-288) only gates on files existing on disk and is
not modelled.  With `optim_iterations = 0` Python would raise
`ZeroDivisionError` at line 367; the theorems below assume at least one
iteration, and the embedding's division-by-zero convention is only reachable
in that unmodelled case. -/

@[ext]
structure StereoResult where
  rmse : ℚ
  rotation_mat : Fin 3 → Fin 3 → ℚ
  translation_vec : Fin 3 → ℚ
  essential_mat : Fin 3 → Fin 3 → ℚ
  fundamental_mat : Fin 3 → Fin 3 → ℚ

/-- The zero accumulators of lines 334-338. -/
def stereoZero : StereoResult :=
  ⟨0, fun _ _ => 0, fun _ => 0, fun _ _ => 0, fun _ _ => 0⟩

/-- The `+=` accumulation of lines 361-365. -/
def stereoAdd (a b : StereoResult) : StereoResult :=
  ⟨a.rmse + b.rmse,
   fun i j => a.rotation_mat i j + b.rotation_mat i j,
   fun i => a.translation_vec i + b.translation_vec i,
   fun i j => a.essential_mat i j + b.essential_mat i j,
   fun i j => a.fundamental_mat i j + b.fundamental_mat i j⟩

/-- The division by `optim_iterations` of lines 368-372. -/
def stereoDiv (a : StereoResult) (n : ℚ) : StereoResult :=
  ⟨a.rmse / n,
   fun i j => a.rotation_mat i j / n,
   fun i => a.translation_vec i / n,
   fun i j => a.essential_mat i j / n,
   fun i j => a.fundamental_mat i j / n⟩

/-- Sequential Python iteration: the first raised exception propagates. -/
def exceptMapList {β γ : Type} (f : β → Except String γ) : List β → Except String (List γ)
  | [] => Except.ok []
  | b :: l =>
    match f b with
    | Except.error e => Except.error e
    | Except.ok c =>
      match exceptMapList f l with
      | Except.error e => Except.error e
      | Except.ok cs => Except.ok (c :: cs)

/-- `np.random.randint(n, size=batch_size)` (lines 342): numpy raises
`ValueError` when asked for integers below `n = 0`; otherwise the oracle
supplies the random draw (reduced mod `n` to stay in range). -/
def selectBatch (oracle : List ℕ) (n batchSize : ℕ) : Except String (List ℕ) :=
  if n = 0 then Except.error "ValueError: low >= high"
  else Except.ok ((oracle.take batchSize).map (fun x => x % n))

/-- Lines 339-372: the `optim_iterations` stereo rounds for one ordered camera
pair, each drawing a batch and calling the solver, then averaging. -/
def stereoRounds (iters batchSize n : ℕ) (oracle : List ℕ)
    (solve : ℕ → StereoResult) : Except String StereoResult :=
  match exceptMapList (fun i => (selectBatch oracle n batchSize).map (fun _ => solve i))
      (List.range iters) with
  | Except.error e => Except.error e
  | Except.ok rs => Except.ok (stereoDiv (rs.foldl stereoAdd stereoZero) iters)

/-- Lines 292-299: load each camera's filtered targets; a camera whose filter
produced no valid targets (`None`) raises when iterated. -/
def loadCamFrames {α : Type} (cameras : List String)
    (filtered : String → Option (List (String × α))) :
    Except String (List (String × List (String × α))) :=
  exceptMapList (fun c =>
    match filtered c with
    | none => Except.error "TypeError: NoneType object is not iterable"
    | some l => Except.ok (c, l)) cameras

/-- Lines 313-381: for every main camera, stereo-calibrate against every other
camera (`[c for c in cameras if c.uuid != main_cam.uuid]`), sampling from the
`all_valid_frames` set, building the nested table `extrinsic_output[main][cam]`
that line 382 persists. -/
def pairLoop {α : Type} (iters batchSize : ℕ) (oracle : List ℕ)
    (solve : String → String → ℕ → StereoResult) (cameras : List String)
    (camFrames : List (String × List (String × α))) :
    Except String (List (String × List (String × StereoResult))) :=
  exceptMapList (fun main =>
    (exceptMapList (fun cam =>
        (stereoRounds iters batchSize (allValidFrames cameras.length camFrames).length
          oracle (solve main cam)).map (fun r => (cam, r)))
      (cameras.filter (fun c => c != main))).map (fun inner => (main, inner)))
    cameras

/-- `calibrate_extrinsics` (src/core.py lines 270-383): load the per-camera
filtered targets, intersect the frames, run the averaged stereo rounds for
every ordered pair of distinct cameras; the returned table is what line 382
writes to `calibration_extrinsics.json`. -/
def calibrate_extrinsics {α : Type} (iters batchSize : ℕ) (oracle : List ℕ)
    (solve : String → String → ℕ → StereoResult) (cameras : List String)
    (filtered : String → Option (List (String × α))) :
    Except String (List (String × List (String × StereoResult))) :=
  match loadCamFrames cameras filtered with
  | Except.error e => Except.error e
  | Except.ok camFrames => pairLoop iters batchSize oracle solve cameras camFrames


theorem exceptMapList_cons {β γ : Type} (f : β → Except String γ) (c : β) (t : List β) :
    exceptMapList f (c :: t)
      = match f c with
        | Except.error e => Except.error e
        | Except.ok v =>
          match exceptMapList f t with
          | Except.error e => Except.error e
          | Except.ok cs => Except.ok (v :: cs) := rfl

theorem exceptMap_isOk {γ δ : Type} (f : γ → δ) (x : Except String γ) :
    (x.map f).isOk = x.isOk := by
  cases x <;> rfl

theorem exceptMap_eq_ok {γ δ : Type} (f : γ → δ) (x : Except String γ) (y : δ)
    (h : x.map f = Except.ok y) : ∃ v, x = Except.ok v ∧ y = f v := by
  cases x with
  | error e => simp [Except.map] at h
  | ok v =>
    refine ⟨v, rfl, ?_⟩
    simpa [Except.map] using h.symm

theorem exceptMapList_isOk_false {β γ : Type} (f : β → Except String γ) :
    ∀ (l : List β) (b : β), b ∈ l → (f b).isOk = false →
      (exceptMapList f l).isOk = false := by
  intro l
  induction l with
  | nil => intro b hb; simp at hb
  | cons c t ih =>
    intro b hb hfb
    rw [exceptMapList_cons]
    rcases hfc : f c with e | v
    · rfl
    · rcases List.mem_cons.mp hb with rfl | hbt
      · rw [hfc] at hfb
        simp [Except.isOk, Except.toBool] at hfb
      · have hrec := ih b hbt hfb
        rcases hX : exceptMapList f t with e | cs
        · rfl
        · rw [hX] at hrec
          simp [Except.isOk, Except.toBool] at hrec

theorem exceptMapList_ok_of_forall {β γ : Type} (f : β → Except String γ) (g : β → γ) :
    ∀ (l : List β), (∀ b ∈ l, f b = Except.ok (g b)) →
      exceptMapList f l = Except.ok (l.map g) := by
  intro l
  induction l with
  | nil => intro _; rfl
  | cons c t ih =>
    intro h
    rw [exceptMapList_cons, h c (List.mem_cons_self c t),
      ih (fun b hb => h b (List.mem_cons_of_mem c hb))]
    rfl

theorem exceptMapList_ok_inv {β γ : Type} (f : β → Except String γ) :
    ∀ (l : List β) (r : List γ), exceptMapList f l = Except.ok r →
      List.Forall₂ (fun b c => f b = Except.ok c) l r := by
  intro l
  induction l with
  | nil =>
    intro r h
    have h2 : (Except.ok [] : Except String (List γ)) = Except.ok r := h
    rw [← (Except.ok.injEq _ _).mp h2]
    exact List.Forall₂.nil
  | cons c t ih =>
    intro r h
    rw [exceptMapList_cons] at h
    rcases hfc : f c with e | v
    · rw [hfc] at h
      exact absurd h (by simp)
    · rw [hfc] at h
      rcases hX : exceptMapList f t with e | cs
      · rw [hX] at h
        exact absurd h (by simp)
      · rw [hX] at h
        have hr : v :: cs = r := (Except.ok.injEq _ _).mp h
        rw [← hr]
        exact List.Forall₂.cons hfc (ih cs hX)

theorem forall₂_map_eq {β γ δ : Type} (R : β → γ → Prop) (f1 : γ → δ) (f2 : β → δ)
    (hRF : ∀ b c, R b c → f1 c = f2 b) :
    ∀ (l : List β) (r : List γ), List.Forall₂ R l r → r.map f1 = l.map f2 := by
  intro l r h
  induction h with
  | nil => rfl
  | cons h1 _ ih => simp only [List.map_cons, hRF _ _ h1, ih]

theorem stereoRounds_zero_isOk_false (iters batchSize : ℕ) (oracle : List ℕ)
    (s : ℕ → StereoResult) (hiters : 1 ≤ iters) :
    (stereoRounds iters batchSize 0 oracle s).isOk = false := by
  have h0 : (0 : ℕ) ∈ List.range iters := List.mem_range.mpr hiters
  have hf : (((selectBatch oracle 0 batchSize).map (fun _ => s 0)) :
      Except String StereoResult).isOk = false := rfl
  have hall := exceptMapList_isOk_false
      (fun i => (selectBatch oracle 0 batchSize).map (fun _ => s i)) (List.range iters) 0 h0 hf
  unfold stereoRounds
  rcases hX : exceptMapList (fun i => (selectBatch oracle 0 batchSize).map (fun _ => s i))
      (List.range iters) with e | rs
  · rfl
  · rw [hX] at hall
    simp [Except.isOk, Except.toBool] at hall

/-- C9: whenever the intersection of post-filter frames across all cameras is
empty, `calibrate_extrinsics` raises before reaching the persist step at line
382 (either the `TypeError` from iterating a `None` filter result, or numpy's
`ValueError` from `np.random.randint(0, ...)` in the first stereo round), so
the error surfaces to the caller and no silent empty extrinsics output is
persisted. -/
theorem calibrate_extrinsics_empty_intersection_errors {α : Type}
    (iters batchSize : ℕ) (oracle : List ℕ) (solve : String → String → ℕ → StereoResult)
    (cameras : List String) (filtered : String → Option (List (String × α)))
    (hiters : 1 ≤ iters) (hnodup : cameras.Nodup)
    (hfne : ∀ c ∈ cameras, filtered c ≠ some [])
    (hempty : ¬ ∃ fid, ∀ c ∈ cameras, fid ∈ ((filtered c).getD []).map Prod.fst) :
    (calibrate_extrinsics iters batchSize oracle solve cameras filtered).isOk = false := by
  unfold calibrate_extrinsics
  by_cases hnone : ∃ c ∈ cameras, filtered c = none
  · obtain ⟨c, hc, hcn⟩ := hnone
    have hfc : ((match filtered c with
        | none => (Except.error "TypeError: NoneType object is not iterable" :
            Except String (String × List (String × α)))
        | some l => Except.ok (c, l))).isOk = false := by
      rw [hcn]
      rfl
    have hload := exceptMapList_isOk_false (fun c =>
        match filtered c with
        | none => Except.error "TypeError: NoneType object is not iterable"
        | some l => Except.ok (c, l)) cameras c hc hfc
    rcases hX : loadCamFrames cameras filtered with e | camFrames
    · rfl
    · rw [loadCamFrames] at hX
      rw [hX] at hload
      simp [Except.isOk, Except.toBool] at hload
  · push_neg at hnone
    have hok : loadCamFrames cameras filtered
        = Except.ok (cameras.map (fun c => (c, (filtered c).getD []))) := by
      unfold loadCamFrames
      apply exceptMapList_ok_of_forall
      intro c hc
      rcases hfl : filtered c with _ | l
      · exact absurd hfl (hnone c hc)
      · rfl
    rw [hok]
    show (pairLoop iters batchSize oracle solve cameras
        (cameras.map (fun c => (c, (filtered c).getD [])))).isOk = false
    have hkeys : (cameras.map (fun c => (c, (filtered c).getD []))).map Prod.fst
        = cameras := by
      have hcomp : (Prod.fst ∘ fun c : String => (c, (filtered c).getD []))
          = (id : String → String) := rfl
      rw [List.map_map, hcomp, List.map_id]
    have hvalid : allValidFrames cameras.length
        (cameras.map (fun c => (c, (filtered c).getD []))) = [] := by
      rw [allValidFrames]
      apply List.filter_eq_nil.mpr
      intro p hp hplen
      have hlen : p.2.length = cameras.length := by simpa using hplen
      have hik := innerKeys_of_mem
        (buildAllFrames (cameras.map (fun c => (c, (filtered c).getD []))))
        (buildAllFrames_keys_nodup _) p hp
      rw [buildAllFrames_innerKeys _ (by rw [hkeys]; exact hnodup) p.1] at hik
      have hflen : ((cameras.map (fun c => (c, (filtered c).getD []))).filter
          (fun cf => decide (p.1 ∈ cf.2.map Prod.fst))).length
          = (cameras.map (fun c => (c, (filtered c).getD []))).length := by
        have hh := congrArg List.length hik
        rw [List.length_map, List.length_map] at hh
        rw [hh, hlen, List.length_map]
      have hall := filter_length_eq_all _ _ hflen
      refine hempty ⟨p.1, ?_⟩
      intro c hc
      have hcf := hall _ (List.mem_map.mpr ⟨c, hc, rfl⟩)
      simpa using hcf
    rcases cameras with _ | ⟨c1, rest1⟩
    · exact absurd ⟨"", fun c hc => absurd hc (List.not_mem_nil c)⟩ hempty
    rcases rest1 with _ | ⟨c2, rest2⟩
    · have h1 : filtered c1 ≠ some [] := hfne c1 (List.mem_cons_self c1 [])
      rcases hfl : filtered c1 with _ | l
      · exact absurd hfl (hnone c1 (List.mem_cons_self c1 []))
      rcases l with _ | ⟨kv, lrest⟩
      · exact absurd hfl h1
      refine absurd ⟨kv.1, ?_⟩ hempty
      intro c hc
      have hceq : c = c1 := by simpa using hc
      rw [hceq, hfl]
      simp
    · unfold pairLoop
      refine exceptMapList_isOk_false _ _ c1 (List.mem_cons_self _ _) ?_
      rw [exceptMap_isOk]
      have hne21 : c2 ≠ c1 := by
        rcases List.nodup_cons.mp hnodup with ⟨hn1, _⟩
        intro he
        refine hn1 ?_
        rw [← he]
        exact List.mem_cons_self c2 rest2
      refine exceptMapList_isOk_false _ _ c2 ?_ ?_
      · rw [List.mem_filter]
        refine ⟨List.mem_cons_of_mem c1 (List.mem_cons_self c2 rest2), ?_⟩
        simpa using hne21
      · rw [exceptMap_isOk]
        have hn0 : (allValidFrames (c1 :: c2 :: rest2).length
            ((c1 :: c2 :: rest2).map (fun c => (c, (filtered c).getD [])))).length = 0 := by
          rw [hvalid]
          rfl
        rw [hn0]
        exact stereoRounds_zero_isOk_false iters batchSize oracle (solve c1 c2) hiters

/-- Witness for C9: a two-camera rig whose post-filter frame sets are disjoint
(`{x}` and `{y}`) makes `calibrate_extrinsics` fail. -/
theorem calibrate_extrinsics_empty_intersection_errors_witness :
    ((1 : ℕ) ≤ 1 ∧ (["a", "b"] : List String).Nodup) ∧
    (calibrate_extrinsics 1 30 [0] (fun _ _ _ => stereoZero) ["a", "b"]
        (fun c => if c = "a" then some [("x", ())] else some [("y", ())])).isOk = false :=
  ⟨⟨le_refl 1, by decide⟩,
   calibrate_extrinsics_empty_intersection_errors 1 30 [0] (fun _ _ _ => stereoZero)
     ["a", "b"] (fun c => if c = "a" then some [("x", ())] else some [("y", ())])
     (le_refl 1) (by decide) (by decide)
     (by
       rintro ⟨fid, hfid⟩
       have ha := hfid "a" (by simp)
       have hb := hfid "b" (by simp)
       simp at ha hb
       subst ha
       exact absurd hb (by decide))⟩

/-! ## CameraTransformer projection matrices (src/core.py 386-399)

`CameraTransformer.__init__` loads the persisted table and derives projection
matrices; for pairs it uses line 398
(`K @ np.concatenate([R, t], axis=1)`), and for the self-pair line 399
synthesizes `K @ np.concatenate([np.eye(3), np.zeros((3,1))], axis=1)` — the
self-pair is not read from the persisted table. -/

def matMul34 (K : Fin 3 → Fin 3 → ℚ) (M : Fin 3 → Fin 4 → ℚ) : Fin 3 → Fin 4 → ℚ :=
  fun i j => ∑ k, K i k * M k j

/-- `np.concatenate([R, t], axis=1)`: a 3x4 matrix `[R | t]`. -/
def concatRt (R : Fin 3 → Fin 3 → ℚ) (t : Fin 3 → ℚ) : Fin 3 → Fin 4 → ℚ :=
  fun i j => if h : (j : ℕ) < 3 then R i ⟨j, h⟩ else t i

/-- Line 398: the projection matrix of a calibrated ordered pair. -/
def projectionMatrix (K R : Fin 3 → Fin 3 → ℚ) (t : Fin 3 → ℚ) : Fin 3 → Fin 4 → ℚ :=
  matMul34 K (concatRt R t)

/-- `np.eye(3)`: the identity rotation. -/
def eye3 : Fin 3 → Fin 3 → ℚ := fun i j => if i = j then 1 else 0

/-- `np.zeros((3, 1))`: the zero translation. -/
def zeros31 : Fin 3 → ℚ := fun _ => 0

/-- Line 399: the synthesized self-pair projection matrix. -/
def selfProjectionMatrix (K : Fin 3 → Fin 3 → ℚ) : Fin 3 → Fin 4 → ℚ :=
  matMul34 K (concatRt eye3 zeros31)

/-- C6 counterexample: for the two-camera rig `["a", "b"]` with one shared
frame, the table persisted by `calibrate_extrinsics` holds under main camera
`"a"` only the pair entry for `"b"` (and under `"b"` only `"a"`): no self-pair
entry is persisted, because line 331 iterates
`[c for c in cameras if c.uuid != main_cam.uuid]`. -/
theorem calibrate_extrinsics_no_self_pair_counterexample :
    (calibrate_extrinsics 1 1 [0] (fun _ _ _ => stereoZero) ["a", "b"]
        (fun _ => some [("f", ())])).toOption.map
      (fun T => T.map (fun p => (p.1, p.2.map Prod.fst)))
      = some [("a", ["b"]), ("b", ["a"])] := by
  rfl

/-- C6 amended: the extrinsics table persisted by `calibrate_extrinsics`
contains, for each main camera, pair entries exactly for the other cameras in
rig order and never the self-pair; the identity self-pair is synthesized at
load time by `CameraTransformer.__init__` instead, whose self projection
matrix equals the pairwise projection formula of line 398 evaluated at the
identity rotation and zero translation, which is `[K | 0]`. -/
theorem calibrate_extrinsics_pair_table_and_self_identity {α : Type}
    (iters batchSize : ℕ) (oracle : List ℕ) (solve : String → String → ℕ → StereoResult)
    (cameras : List String) (filtered : String → Option (List (String × α))) :
    ((calibrate_extrinsics iters batchSize oracle solve cameras filtered).toOption.map
        (fun T => T.map (fun p => (p.1, p.2.map Prod.fst))))
      = ((calibrate_extrinsics iters batchSize oracle solve cameras filtered).toOption.map
        (fun _ => cameras.map (fun m => (m, cameras.filter (fun c => c != m))))) ∧
    (∀ K, selfProjectionMatrix K = projectionMatrix K eye3 zeros31) ∧
    (∀ K i j, selfProjectionMatrix K i j
        = if h : (j : ℕ) < 3 then K i ⟨j, h⟩ else 0) := by
  refine ⟨?_, fun K => rfl, ?_⟩
  · rcases hrun : calibrate_extrinsics iters batchSize oracle solve cameras filtered
        with e | T
    · rfl
    · simp only [Except.toOption, Option.map, Option.some.injEq]
      rw [calibrate_extrinsics] at hrun
      rcases hL : loadCamFrames cameras filtered with e | camFrames
      · rw [hL] at hrun
        exact absurd hrun (by simp)
      · rw [hL] at hrun
        have hrun2 : pairLoop iters batchSize oracle solve cameras camFrames
            = Except.ok T := hrun
        unfold pairLoop at hrun2
        have hinv := exceptMapList_ok_inv _ cameras T hrun2
        refine forall₂_map_eq _ _ _ ?_ cameras T hinv
        intro main p hp
        obtain ⟨inner, hinner, hpv⟩ := exceptMap_eq_ok _ _ _ hp
        subst hpv
        show (main, inner.map Prod.fst) = (main, cameras.filter (fun c => c != main))
        have hinv2 := exceptMapList_ok_inv _ _ _ hinner
        have hkeys2 := forall₂_map_eq _ Prod.fst (fun c : String => c)
          (fun cam pr hpr => by
            obtain ⟨v, _, hv⟩ := exceptMap_eq_ok _ _ _ hpr
            rw [hv]) _ _ hinv2
        rw [show (fun c : String => c) = (id : String → String) from rfl,
          List.map_id] at hkeys2
        rw [hkeys2]
  · intro K i j
    unfold selfProjectionMatrix matMul34 concatRt eye3 zeros31
    by_cases hj : (j : ℕ) < 3
    · rw [dif_pos hj]
      have hterm : ∀ k : Fin 3,
          K i k * (if h : (j : ℕ) < 3 then (if k = ⟨j, h⟩ then (1 : ℚ) else 0) else 0)
            = if k = ⟨j, hj⟩ then K i k else 0 := by
        intro k
        rw [dif_pos hj]
        by_cases hk : k = ⟨j, hj⟩ <;> simp [hk]
      rw [Finset.sum_congr rfl (fun k _ => hterm k)]
      simp [Finset.sum_ite_eq']
    · rw [dif_neg hj]
      have hterm : ∀ k : Fin 3,
          K i k * (if h : (j : ℕ) < 3 then (if k = ⟨j, h⟩ then (1 : ℚ) else 0) else 0)
            = 0 := by
        intro k
        rw [dif_neg hj, mul_zero]
      rw [Finset.sum_congr rfl (fun k _ => hterm k)]
      simp

/-! ## Target filtering (`filter_images_for_intrinsics`, src/core.py 146-191)

Targets for one camera are an insertion-ordered list of
`(image key, P × 2 point array)` with a fixed point count `P` (`np.stack`
requires equal shapes).  numpy statistics are modelled over `ℝ`:
`np.percentile` with its default linear interpolation sorts its input — any
comparison sort of real values yields the same sorted list, so insertion sort
is used.  Where a standard deviation is zero numpy produces `nan` and every
comparison with it is false; the model's `x / 0 = 0` convention enters only
such values, and the claims below do not depend on them. -/

noncomputable def listMean (l : List ℝ) : ℝ := l.sum / l.length

/-- `array.std(axis=...)`: the population standard deviation. -/
noncomputable def listStd (l : List ℝ) : ℝ :=
  Real.sqrt (listMean (l.map (fun x => (x - listMean l) ^ 2)))

/-- Ascending sort of the real values (`np.percentile` sorts its input). -/
noncomputable def sortR (l : List ℝ) : List ℝ := List.insertionSort (· ≤ ·) l

/-- The interpolation rank of `np.percentile(·, q)` on `n` values. -/
noncomputable def pctRank (q : ℝ) (n : ℕ) : ℝ := q / 100 * ((n : ℝ) - 1)

/-- The lower interpolation index `⌊rank⌋`. -/
noncomputable def pctLo (q : ℝ) (n : ℕ) : ℕ := (⌊pctRank q n⌋).toNat

/-- `np.percentile(values, q)` with the default linear interpolation: sort the
values ascending and interpolate between positions `⌊rank⌋` and `⌊rank⌋ + 1`
(clamped to the last position), `rank = q/100 * (n-1)`.  numpy raises on an
empty input; the filter never calls it on one. -/
noncomputable def npPercentile (q : ℝ) (l : List ℝ) : ℝ :=
  (sortR l).getD (pctLo q (sortR l).length) 0
    + (pctRank q (sortR l).length - (pctLo q (sortR l).length : ℝ))
      * ((sortR l).getD (min (pctLo q (sortR l).length + 1) ((sortR l).length - 1)) 0
        - (sortR l).getD (pctLo q (sortR l).length) 0)

/-- The per-coordinate column of one target's point array. -/
def targetCol {P : ℕ} (t : Fin P → Fin 2 → ℝ) (c : Fin 2) : List ℝ :=
  (List.finRange P).map (fun p => t p c)

/-- `Z_norm` (lines 119-120) of one target's point array: per coordinate,
subtract the mean over the points and divide by the std over the points. -/
noncomputable def Z_norm {P : ℕ} (t : Fin P → Fin 2 → ℝ) : Fin P → Fin 2 → ℝ :=
  fun p c => (t p c - listMean (targetCol t c)) / listStd (targetCol t c)

/-- Line 150: `np.sqrt((normalised_patterns - normalised_patterns.mean(axis=0))**2)`,
the deviation of one image's normalized pattern from the cross-image mean at
one grid point and coordinate. -/
noncomputable def perPointStd {P : ℕ} (targets : List (String × (Fin P → Fin 2 → ℝ)))
    (t : Fin P → Fin 2 → ℝ) (p : Fin P) (c : Fin 2) : ℝ :=
  Real.sqrt ((Z_norm t p c - listMean (targets.map (fun kv => Z_norm kv.2 p c))) ^ 2)

/-- Line 151: the per-point `(100 - q)`-th percentile of the deviations over
the images. -/
noncomputable def stdThreshold {P : ℕ} (q : ℝ)
    (targets : List (String × (Fin P → Fin 2 → ℝ))) (p : Fin P) (c : Fin 2) : ℝ :=
  npPercentile (100 - q) (targets.map (fun kv => perPointStd targets kv.2 p c))

/-- Lines 152 and 159-160: `valid_std_mask[i].all()` for one image — the
deviation must be within the threshold at every point and coordinate. -/
noncomputable def stdMask {P : ℕ} (q : ℝ)
    (targets : List (String × (Fin P → Fin 2 → ℝ)))
    (kv : String × (Fin P → Fin 2 → ℝ)) : Bool :=
  decide (∀ (p : Fin P) (c : Fin 2),
    perPointStd targets kv.2 p c ≤ stdThreshold q targets p c)

/-- Lines 159-162 and 181-184: entries whose index-aligned mask is false are
set to `None` and dropped; dict keys are unique, so this equals keeping the
entries whose mask entry is true. -/
def keepByMaskL {β : Type} : List β → List Bool → List β
  | [], _ => []
  | _ :: _, [] => []
  | b :: t, m :: ms => if m then b :: keepByMaskL t ms else keepByMaskL t ms

/-- The per-point stability pass (lines 148-167): keep the images passing
`stdMask`; report `None` ("no valid targets") when nothing survives. -/
noncomputable def filterStdPass {P : ℕ} (q : ℝ)
    (targets : List (String × (Fin P → Fin 2 → ℝ))) :
    Option (List (String × (Fin P → Fin 2 → ℝ))) :=
  if (keepByMaskL targets (targets.map (stdMask q targets))).isEmpty then none
  else some (keepByMaskL targets (targets.map (stdMask q targets)))

/-- Line 171: a target's centroid (`valid_target.mean(axis=0)`). -/
noncomputable def targetMean {P : ℕ} (t : Fin P → Fin 2 → ℝ) (c : Fin 2) : ℝ :=
  listMean (targetCol t c)

/-- Line 172: the Z-normalized centroids across the images. -/
noncomputable def normedTargetMean {P : ℕ}
    (targets : List (String × (Fin P → Fin 2 → ℝ)))
    (t : Fin P → Fin 2 → ℝ) (c : Fin 2) : ℝ :=
  (targetMean t c - listMean (targets.map (fun kv => targetMean kv.2 c)))
    / listStd (targets.map (fun kv => targetMean kv.2 c))

/-- Line 173: one image's `avg_total_distances_inv` entry — per coordinate the
Gaussian kernel `exp(-mean_j (z_i - z_j)^2)` over the images, then the mean
over the two coordinates. -/
noncomputable def avgTotalDistInv {P : ℕ}
    (targets : List (String × (Fin P → Fin 2 → ℝ)))
    (t : Fin P → Fin 2 → ℝ) : ℝ :=
  listMean ((List.finRange 2).map (fun c =>
    Real.exp (-(listMean (targets.map (fun kv =>
      (normedTargetMean targets t c - normedTargetMean targets kv.2 c) ^ 2))))))

/-- Line 174: keep iff `avg_total_distances_inv < np.percentile(..., 100 - pct)`. -/
noncomputable def distMask {P : ℕ} (pct : ℝ)
    (targets : List (String × (Fin P → Fin 2 → ℝ)))
    (kv : String × (Fin P → Fin 2 → ℝ)) : Bool :=
  decide (avgTotalDistInv targets kv.2
    < npPercentile (100 - pct) (targets.map (fun kv2 => avgTotalDistInv targets kv2.2)))

/-- The spatial-diversity pass (lines 170-189). -/
noncomputable def filterDistancePass {P : ℕ} (pct : ℝ)
    (targets : List (String × (Fin P → Fin 2 → ℝ))) :
    Option (List (String × (Fin P → Fin 2 → ℝ))) :=
  if (keepByMaskL targets (targets.map (distMask pct targets))).isEmpty then none
  else some (keepByMaskL targets (targets.map (distMask pct targets)))

/-- `filter_images_for_intrinsics` (lines 146-191): the two passes in
sequence, each short-circuiting to the "no valid targets" outcome. -/
noncomputable def filter_images_for_intrinsics {P : ℕ} (q pct : ℝ)
    (targets : List (String × (Fin P → Fin 2 → ℝ))) :
    Option (List (String × (Fin P → Fin 2 → ℝ))) :=
  match filterStdPass q targets with
  | none => none
  | some ts => filterDistancePass pct ts

/-- `calibrate_intrinsics` lines 213-215: filter the targets and immediately
build `np.array([*targets.values()])`; when the filter returned `None` this
dereference raises `AttributeError`.  The batch-averaged solver loop
(`calibrate_intrinsics_avg` above) consumes the `ok` payload. -/
noncomputable def calibrate_intrinsics_run {P : ℕ} (q pct : ℝ)
    (targets : List (String × (Fin P → Fin 2 → ℝ))) :
    Except String (List (Fin P → Fin 2 → ℝ)) :=
  match filter_images_for_intrinsics q pct targets with
  | none => Except.error "AttributeError: NoneType object has no attribute values"
  | some ts => Except.ok (ts.map Prod.snd)

theorem listMean_singleton (x : ℝ) : listMean [x] = x := by
  simp [listMean]

theorem getD_mem_of_lt {β : Type} :
    ∀ (l : List β) (n : ℕ), n < l.length → ∀ d, l.getD n d ∈ l := by
  intro l
  induction l with
  | nil => intro n h; simp at h
  | cons b t ih =>
    intro n h d
    cases n with
    | zero => simp [List.getD_cons_zero]
    | succ m =>
      rw [List.getD_cons_succ]
      exact List.mem_cons_of_mem b (ih m (by simpa using h) d)

theorem sortR_perm (l : List ℝ) : (sortR l).Perm l := List.perm_insertionSort _ l

theorem sortR_length (l : List ℝ) : (sortR l).length = l.length :=
  (sortR_perm l).length_eq

theorem npPercentile_singleton (q x : ℝ) : npPercentile q [x] = x := by
  have hs : sortR [x] = [x] := by
    simp [sortR, List.insertionSort]
  have hrank : pctRank q ([x] : List ℝ).length = 0 := by
    simp [pctRank]
  have hlo : pctLo q ([x] : List ℝ).length = 0 := by
    unfold pctLo
    rw [hrank]
    simp
  unfold npPercentile
  rw [hs, hrank, hlo]
  simp

theorem npPercentile_le (q : ℝ) (l : List ℝ) (M : ℝ) (hq0 : 0 ≤ q) (hq1 : q ≤ 100)
    (hne : l ≠ []) (hM : ∀ x ∈ l, x ≤ M) : npPercentile q l ≤ M := by
  have hn : 1 ≤ (sortR l).length := by
    rw [sortR_length]
    have : l.length ≠ 0 := fun hh => hne (List.length_eq_zero.mp hh)
    omega
  have hn1 : (0 : ℝ) ≤ ((sortR l).length : ℝ) - 1 := by
    have : (1 : ℝ) ≤ ((sortR l).length : ℝ) := by exact_mod_cast hn
    linarith
  have hrank0 : 0 ≤ pctRank q (sortR l).length :=
    mul_nonneg (div_nonneg hq0 (by norm_num)) hn1
  have hrankle : pctRank q (sortR l).length ≤ ((sortR l).length : ℝ) - 1 := by
    have h1 : q / 100 ≤ 1 := (div_le_one (by norm_num : (0:ℝ) < 100)).mpr hq1
    calc pctRank q (sortR l).length
        = q / 100 * (((sortR l).length : ℝ) - 1) := rfl
      _ ≤ 1 * (((sortR l).length : ℝ) - 1) := mul_le_mul_of_nonneg_right h1 hn1
      _ = ((sortR l).length : ℝ) - 1 := one_mul _
  have hfloor0 : 0 ≤ ⌊pctRank q (sortR l).length⌋ := Int.floor_nonneg.mpr hrank0
  have hlocast : ((pctLo q (sortR l).length : ℕ) : ℝ)
      = ((⌊pctRank q (sortR l).length⌋ : ℤ) : ℝ) := by
    rw [pctLo]
    exact_mod_cast congrArg (fun z : ℤ => (z : ℝ)) (Int.toNat_of_nonneg hfloor0)
  have hlole : pctLo q (sortR l).length ≤ (sortR l).length - 1 := by
    have h2 : ((⌊pctRank q (sortR l).length⌋ : ℤ) : ℝ) ≤ ((sortR l).length : ℝ) - 1 :=
      le_trans (Int.floor_le _) hrankle
    have h3 : ⌊pctRank q (sortR l).length⌋ ≤ ((sortR l).length : ℤ) - 1 := by
      exact_mod_cast h2
    rw [pctLo]
    omega
  have hlolt : pctLo q (sortR l).length < (sortR l).length := by omega
  have hup : min (pctLo q (sortR l).length + 1) ((sortR l).length - 1) < (sortR l).length := by
    omega
  have hfrac0 : 0 ≤ pctRank q (sortR l).length - ((pctLo q (sortR l).length : ℕ) : ℝ) := by
    rw [hlocast]
    linarith [Int.floor_le (pctRank q (sortR l).length)]
  have hfrac1 : pctRank q (sortR l).length - ((pctLo q (sortR l).length : ℕ) : ℝ) ≤ 1 := by
    rw [hlocast]
    linarith [Int.lt_floor_add_one (pctRank q (sortR l).length)]
  have hlM : (sortR l).getD (pctLo q (sortR l).length) 0 ≤ M :=
    hM _ ((sortR_perm l).subset (getD_mem_of_lt (sortR l) _ hlolt 0))
  have huM : (sortR l).getD (min (pctLo q (sortR l).length + 1) ((sortR l).length - 1)) 0 ≤ M :=
    hM _ ((sortR_perm l).subset (getD_mem_of_lt (sortR l) _ hup 0))
  unfold npPercentile
  nlinarith [mul_nonneg hfrac0 (sub_nonneg.mpr huM),
    mul_nonneg (sub_nonneg.mpr hfrac1) (sub_nonneg.mpr hlM)]

theorem keepByMaskL_map {β : Type} (f : β → Bool) :
    ∀ (l : List β), keepByMaskL l (l.map f) = l.filter f := by
  intro l
  induction l with
  | nil => rfl
  | cons b t ih =>
    rw [List.map_cons, List.filter_cons]
    show (if f b then b :: keepByMaskL t (t.map f) else keepByMaskL t (t.map f)) = _
    rw [ih]

theorem filter_length_lt {β : Type} (f : β → Bool) :
    ∀ (l : List β) (x : β), x ∈ l → f x = false → (l.filter f).length < l.length := by
  intro l
  induction l with
  | nil => intro x hx; simp at hx
  | cons b t ih =>
    intro x hx hfx
    rw [List.filter_cons]
    rcases List.mem_cons.mp hx with rfl | hxt
    · rw [if_neg (by simp [hfx])]
      have := List.length_filter_le f t
      simp only [List.length_cons]
      omega
    · by_cases hb : f b = true
      · rw [if_pos hb]
        simp only [List.length_cons]
        exact Nat.succ_lt_succ (ih x hxt hfx)
      · rw [if_neg hb]
        have := ih x hxt hfx
        simp only [List.length_cons]
        omega

theorem list_exists_max : ∀ (l : List ℝ), l ≠ [] → ∃ x ∈ l, ∀ y ∈ l, y ≤ x := by
  intro l
  induction l with
  | nil => intro h; exact absurd rfl h
  | cons a t ih =>
    intro _
    rcases ht : t with _ | ⟨b, t2⟩
    · refine ⟨a, List.mem_cons_self a [], ?_⟩
      intro y hy
      rw [List.mem_singleton.mp hy]
    · obtain ⟨x, hx, hmax⟩ := ih (by simp [ht])
      rw [← ht] at *
      by_cases hax : a ≤ x
      · refine ⟨x, List.mem_cons_of_mem a hx, ?_⟩
        intro y hy
        rcases List.mem_cons.mp hy with rfl | hyt
        · exact hax
        · exact hmax y hyt
      · refine ⟨a, List.mem_cons_self a t, ?_⟩
        intro y hy
        rcases List.mem_cons.mp hy with rfl | hyt
        · exact le_refl y
        · exact le_trans (hmax y hyt) (le_of_not_le hax)

theorem filterDistancePass_singleton {P : ℕ} (pct : ℝ)
    (kv : String × (Fin P → Fin 2 → ℝ)) : filterDistancePass pct [kv] = none := by
  have hmask : distMask pct [kv] kv = false := by
    apply decide_eq_false
    have hmap : ([kv].map (fun kv2 => avgTotalDistInv [kv] kv2.2))
        = [avgTotalDistInv [kv] kv.2] := rfl
    rw [hmap, npPercentile_singleton]
    exact lt_irrefl _
  unfold filterDistancePass
  rw [show [kv].map (distMask pct [kv]) = [distMask pct [kv] kv] from rfl, hmask]
  rfl

theorem filterStdPass_getD {P : ℕ} (q : ℝ)
    (targets : List (String × (Fin P → Fin 2 → ℝ))) :
    (filterStdPass q targets).getD [] = targets.filter (stdMask q targets) := by
  unfold filterStdPass
  rw [keepByMaskL_map]
  cases hfe : targets.filter (stdMask q targets) with
  | nil => simp
  | cons x xs => simp

/-- C3: an image survives the per-point stability pass of
`filter_images_for_intrinsics` if and only if its deviation from the
cross-image mean pattern is within the computed per-point percentile threshold
at every one of its grid points (both coordinates); an image whose deviation
exceeds the threshold at any single point is absent from the result
(all-points-must-pass). -/
theorem filter_std_pass_all_points_must_pass {P : ℕ} (q : ℝ)
    (targets : List (String × (Fin P → Fin 2 → ℝ)))
    (kv : String × (Fin P → Fin 2 → ℝ)) :
    kv ∈ (filterStdPass q targets).getD []
      ↔ kv ∈ targets ∧ ∀ (p : Fin P) (c : Fin 2),
          |Z_norm kv.2 p c - listMean (targets.map (fun kv2 => Z_norm kv2.2 p c))|
            ≤ npPercentile (100 - q)
                (targets.map (fun kv2 => perPointStd targets kv2.2 p c)) := by
  rw [filterStdPass_getD, List.mem_filter]
  constructor
  · rintro ⟨hmem, hmask⟩
    refine ⟨hmem, ?_⟩
    intro p c
    have hprop := of_decide_eq_true hmask
    have h2 := hprop p c
    rw [show perPointStd targets kv.2 p c
        = Real.sqrt ((Z_norm kv.2 p c
            - listMean (targets.map (fun kv2 => Z_norm kv2.2 p c))) ^ 2) from rfl,
      Real.sqrt_sq_eq_abs] at h2
    exact h2
  · rintro ⟨hmem, hcond⟩
    refine ⟨hmem, ?_⟩
    apply decide_eq_true
    intro p c
    rw [show perPointStd targets kv.2 p c
        = Real.sqrt ((Z_norm kv.2 p c
            - listMean (targets.map (fun kv2 => Z_norm kv2.2 p c))) ^ 2) from rfl,
      Real.sqrt_sq_eq_abs]
    exact hcond p c

theorem filterDistancePass_kept {P : ℕ} (pct : ℝ)
    (targets : List (String × (Fin P → Fin 2 → ℝ))) :
    (filterDistancePass pct targets).getD [] = targets.filter (distMask pct targets) := by
  unfold filterDistancePass
  rw [keepByMaskL_map]
  cases hfe : targets.filter (distMask pct targets) with
  | nil => simp
  | cons x xs => simp

/-- C4 amended: in the spatial-diversity pass of
`filter_images_for_intrinsics` an image is dropped exactly when its average
Gaussian-kernel similarity is greater than or equal to the
`(100 - target_top_inverse_distance_exclusion_percentile)`-th percentile of
the similarity distribution; equivalently an image is retained iff its
similarity is strictly below that threshold. -/
theorem filter_distance_pass_drop_iff_ge_threshold {P : ℕ} (pct : ℝ)
    (targets : List (String × (Fin P → Fin 2 → ℝ)))
    (kv : String × (Fin P → Fin 2 → ℝ)) :
    kv ∈ (filterDistancePass pct targets).getD []
      ↔ kv ∈ targets ∧ avgTotalDistInv targets kv.2
          < npPercentile (100 - pct)
              (targets.map (fun kv2 => avgTotalDistInv targets kv2.2)) := by
  rw [filterDistancePass_kept, List.mem_filter]
  constructor
  · rintro ⟨hmem, hmask⟩
    exact ⟨hmem, of_decide_eq_true hmask⟩
  · rintro ⟨hmem, hcond⟩
    exact ⟨hmem, decide_eq_true hcond⟩

/-- C10: the spatial-diversity pass removes at least one image from every
non-empty input: the keep condition is a strict `<` against the
`(100 - pct)`-th percentile of the similarity values, and that percentile
never exceeds the maximal similarity, so an image attaining the maximum never
passes; in particular a single-image input is emptied, yielding the
no-valid-targets outcome. -/
theorem filter_distance_pass_always_removes {P : ℕ} (pct : ℝ)
    (targets : List (String × (Fin P → Fin 2 → ℝ)))
    (hne : targets ≠ []) (h0 : 0 ≤ pct) (h1 : pct ≤ 100) :
    (keepByMaskL targets (targets.map (distMask pct targets))).length < targets.length ∧
    (targets.length = 1 → filterDistancePass pct targets = none) := by
  constructor
  · rw [keepByMaskL_map]
    have hsne : targets.map (fun kv2 => avgTotalDistInv targets kv2.2) ≠ [] := by
      intro hh
      exact hne (List.map_eq_nil.mp hh)
    obtain ⟨x, hx, hmax⟩ := list_exists_max _ hsne
    obtain ⟨kv, hkv, hkvx⟩ := List.mem_map.mp hx
    have hthr : npPercentile (100 - pct)
        (targets.map (fun kv2 => avgTotalDistInv targets kv2.2)) ≤ x :=
      npPercentile_le _ _ x (by linarith) (by linarith) hsne hmax
    have hmask : distMask pct targets kv = false := by
      apply decide_eq_false
      rw [hkvx]
      exact not_lt.mpr hthr
    exact filter_length_lt _ targets kv hkv hmask
  · intro hlen
    rcases targets with _ | ⟨kv0, trest⟩
    · exact absurd rfl hne
    · rcases trest with _ | ⟨kv1, t2⟩
      · exact filterDistancePass_singleton pct kv0
      · simp at hlen

/-- Witness for C10: a single-image input is always emptied. -/
theorem filter_distance_pass_always_removes_witness :
    (([("k", fun _ _ => (0 : ℝ))] : List (String × (Fin 1 → Fin 2 → ℝ))) ≠ []
      ∧ (0 : ℝ) ≤ 20 ∧ (20 : ℝ) ≤ 100) ∧
    ((keepByMaskL ([("k", fun _ _ => (0 : ℝ))] : List (String × (Fin 1 → Fin 2 → ℝ)))
        (([("k", fun _ _ => (0 : ℝ))] : List (String × (Fin 1 → Fin 2 → ℝ))).map
          (distMask 20 [("k", fun _ _ => (0 : ℝ))]))).length
        < ([("k", fun _ _ => (0 : ℝ))] : List (String × (Fin 1 → Fin 2 → ℝ))).length ∧
      (([("k", fun _ _ => (0 : ℝ))] : List (String × (Fin 1 → Fin 2 → ℝ))).length = 1 →
        filterDistancePass 20
          ([("k", fun _ _ => (0 : ℝ))] : List (String × (Fin 1 → Fin 2 → ℝ))) = none)) :=
  ⟨⟨by simp, by norm_num, by norm_num⟩,
   filter_distance_pass_always_removes 20 [("k", fun _ _ => (0 : ℝ))]
     (by simp) (by norm_num) (by norm_num)⟩

/-- The single valid target image of the C7 failing input: two grid points
`(0, 0)` and `(1, 1)`. -/
noncomputable def soloTarget : Fin 2 → Fin 2 → ℝ := fun p _ => (p : ℝ)

/-- C7: evaluating `calibrate_intrinsics` at a failing input: a camera with
exactly one valid target image passes the per-point pass (its deviation is 0
at every point and so is the threshold), the spatial-diversity pass then
empties the set, `filter_images_for_intrinsics` reports the no-valid-targets
outcome (`None`) — and `calibrate_intrinsics` crashes dereferencing it
(`AttributeError` at line 215) instead of treating it as a logged terminal
condition. -/
theorem calibrate_intrinsics_crashes_on_empty_filter :
    calibrate_intrinsics_run 10 10 [("img", soloTarget)]
      = Except.error "AttributeError: NoneType object has no attribute values" := by
  have hmask : stdMask 10 [("img", soloTarget)] ("img", soloTarget) = true := by
    apply decide_eq_true
    intro p c
    have hdev : perPointStd [("img", soloTarget)] soloTarget p c = 0 := by
      rw [show perPointStd [("img", soloTarget)] soloTarget p c
        = Real.sqrt ((Z_norm soloTarget p c
            - listMean [Z_norm soloTarget p c]) ^ 2) from rfl]
      rw [listMean_singleton, sub_self]
      simp
    have hthr : stdThreshold 10 [("img", soloTarget)] p c = 0 := by
      rw [show stdThreshold 10 [("img", soloTarget)] p c
        = npPercentile (100 - 10) [perPointStd [("img", soloTarget)] soloTarget p c]
          from rfl]
      rw [npPercentile_singleton, hdev]
    rw [show (("img", soloTarget) : String × (Fin 2 → Fin 2 → ℝ)).2 = soloTarget from rfl,
      hdev, hthr]
  have hpass1 : filterStdPass 10 [("img", soloTarget)] = some [("img", soloTarget)] := by
    unfold filterStdPass
    rw [show ([("img", soloTarget)] : List (String × (Fin 2 → Fin 2 → ℝ))).map
        (stdMask 10 [("img", soloTarget)])
      = [stdMask 10 [("img", soloTarget)] ("img", soloTarget)] from rfl]
    rw [hmask]
    rfl
  have hfilter : filter_images_for_intrinsics 10 10 [("img", soloTarget)] = none := by
    unfold filter_images_for_intrinsics
    rw [hpass1]
    exact filterDistancePass_singleton 10 ("img", soloTarget)
  unfold calibrate_intrinsics_run
  rw [hfilter]

/-- A constant single-point target (its centroid is the point itself). -/
def cf (d : ℝ) : Fin 1 → Fin 2 → ℝ := fun _ _ => d

/-- The six-image counterexample input to the spatial-diversity pass: centroids
`(0,0), (-1,-1), (2,2), (3,3), (6,6), (-10,-10)`; their mean is `0` and their
per-coordinate std is `5`, so the Z-normalized centroids are `d/5` and the
similarity of the image with centroid `d` is `exp(-(d^2/25 + 1))`. -/
def exSix : List (String × (Fin 1 → Fin 2 → ℝ)) :=
  [("a", cf 0), ("b", cf (-1)), ("c", cf 2), ("d", cf 3), ("e", cf 6), ("f", cf (-10))]

theorem exSix_targetMean (d : ℝ) (c : Fin 2) : targetMean (cf d) c = d :=
  listMean_singleton d

theorem exSix_means (c : Fin 2) :
    exSix.map (fun kv => targetMean kv.2 c) = [(0 : ℝ), -1, 2, 3, 6, -10] := by
  show [targetMean (cf 0) c, targetMean (cf (-1)) c, targetMean (cf 2) c,
        targetMean (cf 3) c, targetMean (cf 6) c, targetMean (cf (-10)) c] = _
  rw [exSix_targetMean, exSix_targetMean, exSix_targetMean, exSix_targetMean,
    exSix_targetMean, exSix_targetMean]

theorem exSix_mu : listMean [(0 : ℝ), -1, 2, 3, 6, -10] = 0 := by
  norm_num [listMean]

theorem exSix_sigma : listStd [(0 : ℝ), -1, 2, 3, 6, -10] = 5 := by
  unfold listStd
  rw [exSix_mu]
  have h2 : listMean (([(0 : ℝ), -1, 2, 3, 6, -10]).map (fun x => (x - 0) ^ 2)) = 25 := by
    norm_num [listMean]
  rw [h2, show (25 : ℝ) = 5 ^ 2 by norm_num, Real.sqrt_sq (by norm_num : (0 : ℝ) ≤ 5)]

theorem exSix_z (d : ℝ) (c : Fin 2) : normedTargetMean exSix (cf d) c = d / 5 := by
  unfold normedTargetMean
  rw [exSix_targetMean, exSix_means c, exSix_mu, exSix_sigma]
  ring

theorem exSix_v (d : ℝ) (c : Fin 2) :
    listMean (exSix.map (fun kv =>
      (normedTargetMean exSix (cf d) c - normedTargetMean exSix kv.2 c) ^ 2))
      = d ^ 2 / 25 + 1 := by
  have hmap : exSix.map (fun kv =>
      (normedTargetMean exSix (cf d) c - normedTargetMean exSix kv.2 c) ^ 2)
      = [(normedTargetMean exSix (cf d) c - normedTargetMean exSix (cf 0) c) ^ 2,
         (normedTargetMean exSix (cf d) c - normedTargetMean exSix (cf (-1)) c) ^ 2,
         (normedTargetMean exSix (cf d) c - normedTargetMean exSix (cf 2) c) ^ 2,
         (normedTargetMean exSix (cf d) c - normedTargetMean exSix (cf 3) c) ^ 2,
         (normedTargetMean exSix (cf d) c - normedTargetMean exSix (cf 6) c) ^ 2,
         (normedTargetMean exSix (cf d) c - normedTargetMean exSix (cf (-10)) c) ^ 2] := rfl
  rw [hmap, exSix_z, exSix_z, exSix_z, exSix_z, exSix_z, exSix_z, exSix_z]
  simp only [listMean, List.sum_cons, List.sum_nil, List.length_cons, List.length_nil]
  push_cast
  ring

theorem exSix_sim (d : ℝ) :
    avgTotalDistInv exSix (cf d) = Real.exp (-(d ^ 2 / 25 + 1)) := by
  unfold avgTotalDistInv
  have hfr : (List.finRange 2).map (fun c =>
      Real.exp (-(listMean (exSix.map (fun kv =>
        (normedTargetMean exSix (cf d) c - normedTargetMean exSix kv.2 c) ^ 2)))))
      = [Real.exp (-(listMean (exSix.map (fun kv =>
          (normedTargetMean exSix (cf d) 0 - normedTargetMean exSix kv.2 0) ^ 2)))),
         Real.exp (-(listMean (exSix.map (fun kv =>
          (normedTargetMean exSix (cf d) 1 - normedTargetMean exSix kv.2 1) ^ 2))))] := rfl
  rw [hfr, exSix_v d 0, exSix_v d 1]
  simp [listMean]

theorem exSix_sims :
    exSix.map (fun kv2 => avgTotalDistInv exSix kv2.2)
      = [Real.exp (-1), Real.exp (-(26 / 25)), Real.exp (-(29 / 25)),
         Real.exp (-(34 / 25)), Real.exp (-(61 / 25)), Real.exp (-5)] := by
  have hmap : exSix.map (fun kv2 => avgTotalDistInv exSix kv2.2)
      = [avgTotalDistInv exSix (cf 0), avgTotalDistInv exSix (cf (-1)),
         avgTotalDistInv exSix (cf 2), avgTotalDistInv exSix (cf 3),
         avgTotalDistInv exSix (cf 6), avgTotalDistInv exSix (cf (-10))] := rfl
  rw [hmap, exSix_sim, exSix_sim, exSix_sim, exSix_sim, exSix_sim, exSix_sim]
  norm_num

theorem exSix_sorted :
    List.Sorted (· ≤ ·) [Real.exp (-5), Real.exp (-(61 / 25)), Real.exp (-(34 / 25)),
      Real.exp (-(29 / 25)), Real.exp (-(26 / 25)), Real.exp (-1)] := by
  norm_num [List.sorted_cons, Real.exp_le_exp]

theorem exSix_sort :
    sortR [Real.exp (-1), Real.exp (-(26 / 25)), Real.exp (-(29 / 25)),
        Real.exp (-(34 / 25)), Real.exp (-(61 / 25)), Real.exp (-5)]
      = [Real.exp (-5), Real.exp (-(61 / 25)), Real.exp (-(34 / 25)),
         Real.exp (-(29 / 25)), Real.exp (-(26 / 25)), Real.exp (-1)] := by
  have hperm2 : ([Real.exp (-5), Real.exp (-(61 / 25)), Real.exp (-(34 / 25)),
      Real.exp (-(29 / 25)), Real.exp (-(26 / 25)), Real.exp (-1)] : List ℝ).Perm
      [Real.exp (-1), Real.exp (-(26 / 25)), Real.exp (-(29 / 25)),
       Real.exp (-(34 / 25)), Real.exp (-(61 / 25)), Real.exp (-5)] := by
    rw [show ([Real.exp (-5), Real.exp (-(61 / 25)), Real.exp (-(34 / 25)),
        Real.exp (-(29 / 25)), Real.exp (-(26 / 25)), Real.exp (-1)] : List ℝ)
      = ([Real.exp (-1), Real.exp (-(26 / 25)), Real.exp (-(29 / 25)),
          Real.exp (-(34 / 25)), Real.exp (-(61 / 25)), Real.exp (-5)] : List ℝ).reverse
        from rfl]
    exact List.reverse_perm _
  exact List.eq_of_perm_of_sorted ((sortR_perm _).trans hperm2.symm)
    (List.sorted_insertionSort _ _) exSix_sorted

theorem exSix_p80 :
    npPercentile (100 - 20) [Real.exp (-1), Real.exp (-(26 / 25)), Real.exp (-(29 / 25)),
        Real.exp (-(34 / 25)), Real.exp (-(61 / 25)), Real.exp (-5)]
      = Real.exp (-(26 / 25)) := by
  unfold npPercentile
  rw [exSix_sort]
  rw [show ([Real.exp (-5), Real.exp (-(61 / 25)), Real.exp (-(34 / 25)),
      Real.exp (-(29 / 25)), Real.exp (-(26 / 25)), Real.exp (-1)] : List ℝ).length = 6
    from rfl]
  have hrank : pctRank (100 - 20) 6 = 4 := by norm_num [pctRank]
  have hlo : pctLo (100 - 20) 6 = 4 := by
    unfold pctLo
    rw [hrank, show ((4 : ℝ)) = ((4 : ℕ) : ℝ) by norm_num, Int.floor_natCast]
    rfl
  rw [hrank, hlo]
  show Real.exp (-(26 / 25)) + ((4 : ℝ) - ((4 : ℕ) : ℝ))
      * (Real.exp (-1) - Real.exp (-(26 / 25))) = Real.exp (-(26 / 25))
  norm_num

theorem exSix_p20 :
    npPercentile 20 [Real.exp (-1), Real.exp (-(26 / 25)), Real.exp (-(29 / 25)),
        Real.exp (-(34 / 25)), Real.exp (-(61 / 25)), Real.exp (-5)]
      = Real.exp (-(61 / 25)) := by
  unfold npPercentile
  rw [exSix_sort]
  rw [show ([Real.exp (-5), Real.exp (-(61 / 25)), Real.exp (-(34 / 25)),
      Real.exp (-(29 / 25)), Real.exp (-(26 / 25)), Real.exp (-1)] : List ℝ).length = 6
    from rfl]
  have hrank : pctRank 20 6 = 1 := by norm_num [pctRank]
  have hlo : pctLo 20 6 = 1 := by
    unfold pctLo
    rw [hrank, show ((1 : ℝ)) = ((1 : ℕ) : ℝ) by norm_num, Int.floor_natCast]
    rfl
  rw [hrank, hlo]
  show Real.exp (-(61 / 25)) + ((1 : ℝ) - ((1 : ℕ) : ℝ))
      * (Real.exp (-(34 / 25)) - Real.exp (-(61 / 25))) = Real.exp (-(61 / 25))
  norm_num

theorem exSix_threshold :
    npPercentile (100 - 20) (exSix.map (fun kv2 => avgTotalDistInv exSix kv2.2))
      = Real.exp (-(26 / 25)) := by
  rw [exSix_sims]
  exact exSix_p80

theorem exSix_mask_a : distMask 20 exSix ("a", cf 0) = false := by
  apply decide_eq_false
  rw [show (("a", cf 0) : String × (Fin 1 → Fin 2 → ℝ)).2 = cf 0 from rfl,
    exSix_sim 0, exSix_threshold, not_lt, Real.exp_le_exp]
  norm_num

theorem exSix_mask_b : distMask 20 exSix ("b", cf (-1)) = false := by
  apply decide_eq_false
  rw [show (("b", cf (-1)) : String × (Fin 1 → Fin 2 → ℝ)).2 = cf (-1) from rfl,
    exSix_sim (-1), exSix_threshold, not_lt, Real.exp_le_exp]
  norm_num

theorem exSix_mask_c : distMask 20 exSix ("c", cf 2) = true := by
  apply decide_eq_true
  rw [show (("c", cf 2) : String × (Fin 1 → Fin 2 → ℝ)).2 = cf 2 from rfl,
    exSix_sim 2, exSix_threshold, Real.exp_lt_exp]
  norm_num

theorem exSix_mask_d : distMask 20 exSix ("d", cf 3) = true := by
  apply decide_eq_true
  rw [show (("d", cf 3) : String × (Fin 1 → Fin 2 → ℝ)).2 = cf 3 from rfl,
    exSix_sim 3, exSix_threshold, Real.exp_lt_exp]
  norm_num

theorem exSix_mask_e : distMask 20 exSix ("e", cf 6) = true := by
  apply decide_eq_true
  rw [show (("e", cf 6) : String × (Fin 1 → Fin 2 → ℝ)).2 = cf 6 from rfl,
    exSix_sim 6, exSix_threshold, Real.exp_lt_exp]
  norm_num

theorem exSix_mask_f : distMask 20 exSix ("f", cf (-10)) = true := by
  apply decide_eq_true
  rw [show (("f", cf (-10)) : String × (Fin 1 → Fin 2 → ℝ)).2 = cf (-10) from rfl,
    exSix_sim (-10), exSix_threshold, Real.exp_lt_exp]
  norm_num

theorem exSix_pass :
    filterDistancePass 20 exSix = some [("c", cf 2), ("d", cf 3), ("e", cf 6), ("f", cf (-10))] := by
  have hmask : exSix.map (distMask 20 exSix) = [false, false, true, true, true, true] := by
    rw [show exSix.map (distMask 20 exSix)
      = [distMask 20 exSix ("a", cf 0), distMask 20 exSix ("b", cf (-1)),
         distMask 20 exSix ("c", cf 2), distMask 20 exSix ("d", cf 3),
         distMask 20 exSix ("e", cf 6), distMask 20 exSix ("f", cf (-10))] from rfl,
      exSix_mask_a, exSix_mask_b, exSix_mask_c, exSix_mask_d, exSix_mask_e, exSix_mask_f]
  unfold filterDistancePass
  rw [hmask]
  rfl

/-- C4 counterexample: for the six-image input `exSix` the image `"c"` has
average similarity `exp(-29/25)`, which exceeds the
`target_top_inverse_distance_exclusion_percentile`-th (here 20th) percentile
`exp(-61/25)` of the similarity distribution, yet the spatial-diversity pass
retains `"c"`: the code compares against the `(100 - 20)`-th percentile
`exp(-26/25)` and also drops at equality (image `"b"`), so "dropped exactly
when the similarity exceeds the `pct`-th percentile" is false as stated. -/
theorem filter_distance_pass_percentile_counterexample :
    avgTotalDistInv exSix (cf 2)
        > npPercentile 20 (exSix.map (fun kv2 => avgTotalDistInv exSix kv2.2)) ∧
    (filterDistancePass 20 exSix).map (fun l => l.map Prod.fst)
      = some ["c", "d", "e", "f"] := by
  constructor
  · rw [exSix_sim 2, exSix_sims, exSix_p20, gt_iff_lt, Real.exp_lt_exp]
    norm_num
  · rw [exSix_pass]
    rfl
